import Mathlib

/-!
Verification of the translation-cache subsystem.

This file gives a shallow embedding, in Lean 4, of the cache subsystem of
the translation skill:

* `src/skills/translation/scripts/utils.py` — text preprocessing, language
  code normalization and cache-key derivation (`generate_cache_key`,
  including a full executable MD5);
* `src/skills/translation/scripts/cache.py` — the `CacheStats` record, the
  `MemoryCache` (LRU over an ordered dict), the `FileCache` (one file per
  entry plus a JSON index) and the `SQLiteCache` (a single table keyed by
  the cache key), each modelled as a pure state machine.

Modelling conventions:

* Wall-clock time (Python `time.time()`, a float) is modelled as `Int`;
  every operation that reads the clock takes the current time `now` as an
  explicit argument.  Claims never depend on fractional seconds.
* Python dicts are modelled as association lists; dict keys are unique, so
  deleting a key is modelled by `List.filter`.  `OrderedDict` is an
  association list whose order is insertion order (front = oldest).
* Fallible I/O is modelled by explicit oracle flags (for example `writeOk`
  for the entry-file write of `FileCache.set`); an uncaught Python
  exception is an `Except.error` carrying a `PyErr`.
* The index persistence of `FileCache` (`_save_index`) swallows its own
  IOError internally and only mirrors the in-memory `_index`, so it is a
  no-op on the modelled state; the in-memory index is the authority.
-/

/-! ## Python string helpers (str.strip, str.lower, re.sub, substring test) -/

/-- The ASCII whitespace characters recognized by Python `str.strip()` and
by the regex class `\s` (space, tab, newline, carriage return, vertical
tab, form feed). -/
def isPySpace (c : Char) : Bool :=
  c = ' ' ∨ c = '\t' ∨ c = '\n' ∨ c = '\r' ∨ c = '\x0b' ∨ c = '\x0c'

/-- ASCII lowercase conversion of one character (Python `str.lower` on the
language codes used here, which are ASCII). -/
def lowerChar (c : Char) : Char :=
  if 'A' ≤ c ∧ c ≤ 'Z' then Char.ofNat (c.toNat + 32) else c

/-- Python `str.lower()`. -/
def lowerStr (s : String) : String := ⟨s.data.map lowerChar⟩

/-- Python `str.strip()`: drop leading and trailing whitespace. -/
def pyStrip (l : List Char) : List Char :=
  ((l.dropWhile isPySpace).reverse.dropWhile isPySpace).reverse

/-- Collapse every maximal run of whitespace to a single space, tracking
whether the previous character was part of a whitespace run.  This is
Python `re.sub(r'\s+', ' ', text)`. -/
def squeezeAux : Bool → List Char → List Char
  | _, [] => []
  | prevSpace, c :: t =>
    if isPySpace c then
      if prevSpace then squeezeAux true t else ' ' :: squeezeAux true t
    else c :: squeezeAux false t

/-- Python `re.sub(r'\s+', ' ', text)`. -/
def squeezeWs (l : List Char) : List Char := squeezeAux false l

/-- Decide whether `needle` is a prefix of `hay`. -/
def isPrefixList : List Char → List Char → Bool
  | [], _ => true
  | _ :: _, [] => false
  | a :: as, b :: bs => a = b && isPrefixList as bs

/-- Decide whether `needle` occurs as a contiguous substring of `hay`
(Python `needle in hay` on strings). -/
def containsSub (needle : List Char) : List Char → Bool
  | [] => needle.isEmpty
  | c :: t => isPrefixList needle (c :: t) || containsSub needle t

/-- Python `needle in hay` for strings. -/
def strContains (needle hay : String) : Bool := containsSub needle.data hay.data

/-- First-match association-list lookup: Python `d[k]` / `k in d` on a
dict modelled as a list of key-value pairs with unique keys. -/
def assocFind (k : String) : List (String × α) → Option α
  | [] => none
  | (k', v) :: t => if k' = k then some v else assocFind k t

/-- Python `del d[k]` on a dict modelled as an association list; keys are
unique, so filtering removes exactly the one binding. -/
def eraseKey (k : String) (l : List (String × α)) : List (String × α) :=
  l.filter (fun p => p.1 ≠ k)

/-- Python `d[k] = v` on a dict: replace in place when the key is present
(dicts keep the original insertion position), append otherwise. -/
def updAssoc (k : String) (v : α) : List (String × α) → List (String × α)
  | [] => [(k, v)]
  | (k', v') :: t => if k' = k then (k, v) :: t else (k', v') :: updAssoc k v t

/-- Python `"sep".join(parts)`. -/
def pyJoin (sep : String) : List String → String
  | [] => ""
  | [x] => x
  | x :: y :: t => x ++ sep ++ pyJoin sep (y :: t)

/-- Stable insertion into a list sorted ascending by the measure `f`
(Python `sorted` is stable; a new element goes before the first strictly
larger element and after equal ones seen so far). -/
def insertBy (f : α → Int) (p : α) : List α → List α
  | [] => [p]
  | q :: t => if f p ≤ f q then p :: q :: t else q :: insertBy f p t

/-- Stable sort ascending by the measure `f` (Python `sorted(l, key=f)`). -/
def sortBy (f : α → Int) : List α → List α
  | [] => []
  | p :: t => insertBy f p (sortBy f t)

/-! ## utils.py — languages, preprocessing, option canonicalization -/

/-- The `LANGUAGE_NAMES` table of `utils.py`: ISO 639-1 code to English
name. -/
def LANGUAGE_NAMES : List (String × String) :=
  [("en", "English"), ("zh", "Chinese"), ("ja", "Japanese"), ("ko", "Korean"),
   ("es", "Spanish"), ("fr", "French"), ("de", "German"), ("it", "Italian"),
   ("pt", "Portuguese"), ("ru", "Russian"), ("ar", "Arabic"), ("hi", "Hindi"),
   ("th", "Thai"), ("vi", "Vietnamese"), ("id", "Indonesian"), ("nl", "Dutch"),
   ("pl", "Polish"), ("tr", "Turkish"), ("sv", "Swedish"), ("da", "Danish"),
   ("fi", "Finnish"), ("no", "Norwegian"), ("cs", "Czech"), ("hu", "Hungarian"),
   ("ro", "Romanian"), ("el", "Greek"), ("he", "Hebrew"), ("uk", "Ukrainian"),
   ("bg", "Bulgarian"), ("hr", "Croatian"), ("sk", "Slovak"), ("sl", "Slovenian"),
   ("et", "Estonian"), ("lv", "Latvian"), ("lt", "Lithuanian"), ("mt", "Maltese"),
   ("ga", "Irish"), ("cy", "Welsh"), ("auto", "Auto-detect")]

/-- The `aliases` table inside `normalize_language_code`. -/
def languageAliases : List (String × String) :=
  [("zh-cn", "zh"), ("zh-tw", "zh"), ("zh-hans", "zh"), ("zh-hant", "zh"),
   ("en-us", "en"), ("en-gb", "en")]

/-- Embedding of `utils.normalize_language_code`: empty code maps to `"auto"`; the code
is lowercased and stripped; for a region-suffixed code whose base is a
known language the base is returned; otherwise the alias table is
consulted with the full code, defaulting to the code itself. -/
def normalize_language_code (code : String) : String :=
  if code = "" then "auto"
  else
    let c : String := ⟨pyStrip (lowerStr code).data⟩
    let viaDash : Option String :=
      if c.data.contains '-' then
        let base : String := ⟨c.data.takeWhile (fun ch => ch ≠ '-')⟩
        if (assocFind base LANGUAGE_NAMES).isSome then some base else none
      else none
    match viaDash with
    | some b => b
    | none => (assocFind c languageAliases).getD c

/-- Embedding of `utils.preprocess_text`: empty text yields empty; otherwise strip,
then collapse internal whitespace runs to a single space. -/
def preprocess_text (text : String) : String :=
  if text = "" then "" else ⟨squeezeWs (pyStrip text.data)⟩

/-- A Python value usable as a translation option (the values passed as
keyword options in this code base are strings, integers or booleans). -/
inductive OptVal where
  | str (v : String)
  | int (v : Int)
  | bool (v : Bool)
deriving DecidableEq, Repr

/-- Minimal JSON string escaping (backslash and double quote; the option
values in this code base need no further escapes). -/
def jsonEscape (s : String) : String :=
  ⟨s.data.foldr
    (fun c acc =>
      if c = '"' then '\\' :: '"' :: acc
      else if c = '\\' then '\\' :: '\\' :: acc
      else c :: acc) []⟩

/-- JSON rendering of one option value, as `json.dumps` renders it. -/
def jsonOfVal : OptVal → String
  | .str v => "\"" ++ jsonEscape v ++ "\""
  | .int v => toString v
  | .bool v => if v then "true" else "false"

/-- One rendered `"key": value` member. -/
def jsonMember (p : String × OptVal) : String :=
  "\"" ++ jsonEscape p.1 ++ "\": " ++ jsonOfVal p.2

/-- Stable insertion by key for `json.dumps(..., sort_keys=True)`. -/
def insertByKey (p : String × OptVal) :
    List (String × OptVal) → List (String × OptVal)
  | [] => [p]
  | q :: t => if p.1 < q.1 ∨ p.1 = q.1 then p :: q :: t else q :: insertByKey p t

/-- Sort an association list of options by key (alphabetical), as
`json.dumps(..., sort_keys=True)` orders dict members. -/
def sortByKey : List (String × OptVal) → List (String × OptVal)
  | [] => []
  | p :: t => insertByKey p (sortByKey t)

/-- Embedding of `json.dumps(d, sort_keys=True)` of an option dict. -/
def jsonDumpsSorted (l : List (String × OptVal)) : String :=
  "\x7b" ++ String.intercalate ", " ((sortByKey l).map jsonMember) ++ "\x7d"

/-- Embedding of `json.dumps(d)` of an option dict in insertion order (used by
`SQLiteCache.set` for the `options` column). -/
def jsonDumpsPlain (l : List (String × OptVal)) : String :=
  "\x7b" ++ String.intercalate ", " (l.map jsonMember) ++ "\x7d"

/-- The fixed allow-list of option names that participate in the cache
key (`generate_cache_key` iterates over exactly these). -/
def allowedOptionKeys : List String := ["formality", "domain", "preserve_formatting"]

/-- The `relevant_options` dict of `generate_cache_key`: the restriction
of the caller-supplied options to the allow-list, in allow-list order
(Python dict insertion order). -/
def relevantOptions (options : List (String × OptVal)) : List (String × OptVal) :=
  allowedOptionKeys.filterMap (fun k => (assocFind k options).map (fun v => (k, v)))

/-- The `key_string` built by `generate_cache_key`: normalized text and
language codes, plus — when the caller passed any options and at least one
is allow-listed — the canonical JSON of the relevant options; all joined
with `"|"`. -/
def cacheKeyString (text source_lang target_lang : String)
    (options : List (String × OptVal)) : String :=
  let normalized_text := preprocess_text text
  let normalized_source := normalize_language_code source_lang
  let normalized_target := normalize_language_code target_lang
  let base := [normalized_text, normalized_source, normalized_target]
  let key_parts :=
    if options.isEmpty then base
    else
      let rel := relevantOptions options
      if rel.isEmpty then base else base ++ [jsonDumpsSorted rel]
  pyJoin "|" key_parts

/-! ## MD5 (hashlib.md5(...).hexdigest() of generate_cache_key)

An executable MD5 over byte lists (bytes are `Nat` below 256, words are
`Nat` reduced mod `2 ^ 32`), following RFC 1321: pad, then for each
64-byte chunk run the 64-step compression, then render the 16-byte digest
as lowercase hex. -/

/-- UTF-8 encoding of one character (Python `str.encode("utf-8")`). -/
def utf8EncodeChar (c : Char) : List Nat :=
  let n := c.toNat
  if n < 128 then [n]
  else if n < 2048 then
    [192 ||| (n >>> 6), 128 ||| (n &&& 63)]
  else if n < 65536 then
    [224 ||| (n >>> 12), 128 ||| ((n >>> 6) &&& 63), 128 ||| (n &&& 63)]
  else
    [240 ||| (n >>> 18), 128 ||| ((n >>> 12) &&& 63),
     128 ||| ((n >>> 6) &&& 63), 128 ||| (n &&& 63)]

/-- UTF-8 encoding of a string as a byte list. -/
def utf8Encode (s : String) : List Nat := s.data.flatMap utf8EncodeChar

/-- Addition mod `2 ^ 32`. -/
def add32 (a b : Nat) : Nat := (a + b) % 4294967296

/-- Bitwise complement on 32 bits. -/
def not32 (x : Nat) : Nat := x ^^^ 4294967295

/-- Left rotation of a 32-bit word. -/
def rotl32 (x s : Nat) : Nat :=
  ((x <<< s) ||| (x >>> (32 - s))) &&& 4294967295

/-- Little-endian list of `count` bytes of `n`. -/
def leBytes (n count : Nat) : List Nat :=
  (List.range count).map (fun i => (n >>> (8 * i)) % 256)

/-- The MD5 per-step constants `K[i] = floor(abs(sin(i+1)) * 2^32)`. -/
def md5K : List Nat :=
  [0xd76aa478, 0xe8c7b756, 0x242070db, 0xc1bdceee, 0xf57c0faf, 0x4787c62a, 0xa8304613, 0xfd469501,
   0x698098d8, 0x8b44f7af, 0xffff5bb1, 0x895cd7be, 0x6b901122, 0xfd987193, 0xa679438e, 0x49b40821,
   0xf61e2562, 0xc040b340, 0x265e5a51, 0xe9b6c7aa, 0xd62f105d, 0x02441453, 0xd8a1e681, 0xe7d3fbc8,
   0x21e1cde6, 0xc33707d6, 0xf4d50d87, 0x455a14ed, 0xa9e3e905, 0xfcefa3f8, 0x676f02d9, 0x8d2a4c8a,
   0xfffa3942, 0x8771f681, 0x6d9d6122, 0xfde5380c, 0xa4beea44, 0x4bdecfa9, 0xf6bb4b60, 0xbebfbc70,
   0x289b7ec6, 0xeaa127fa, 0xd4ef3085, 0x04881d05, 0xd9d4d039, 0xe6db99e5, 0x1fa27cf8, 0xc4ac5665,
   0xf4292244, 0x432aff97, 0xab9423a7, 0xfc93a039, 0x655b59c3, 0x8f0ccc92, 0xffeff47d, 0x85845dd1,
   0x6fa87e4f, 0xfe2ce6e0, 0xa3014314, 0x4e0811a1, 0xf7537e82, 0xbd3af235, 0x2ad7d2bb, 0xeb86d391]

/-- The MD5 per-step left-rotation amounts. -/
def md5S : List Nat :=
  [7, 12, 17, 22, 7, 12, 17, 22, 7, 12, 17, 22, 7, 12, 17, 22,
   5, 9, 14, 20, 5, 9, 14, 20, 5, 9, 14, 20, 5, 9, 14, 20,
   4, 11, 16, 23, 4, 11, 16, 23, 4, 11, 16, 23, 4, 11, 16, 23,
   6, 10, 15, 21, 6, 10, 15, 21, 6, 10, 15, 21, 6, 10, 15, 21]

/-- MD5 padding: append `0x80`, zero bytes up to 56 mod 64, then the
original bit length as 8 little-endian bytes. -/
def md5Pad (msg : List Nat) : List Nat :=
  let zeros := (119 - msg.length % 64) % 64
  msg ++ [128] ++ List.replicate zeros 0 ++ leBytes (msg.length * 8) 8

/-- Word `j` (little-endian) of a 64-byte chunk. -/
def leWord (chunk : List Nat) (j : Nat) : Nat :=
  chunk.getD (4 * j) 0 + 256 * chunk.getD (4 * j + 1) 0 +
    65536 * chunk.getD (4 * j + 2) 0 + 16777216 * chunk.getD (4 * j + 3) 0

/-- One of the 64 MD5 steps on the running state `(a, b, c, d)`. -/
def md5Step (chunk : List Nat) (st : Nat × Nat × Nat × Nat) (i : Nat) :
    Nat × Nat × Nat × Nat :=
  let a := st.1
  let b := st.2.1
  let c := st.2.2.1
  let d := st.2.2.2
  let fg : Nat × Nat :=
    if i < 16 then ((b &&& c) ||| (not32 b &&& d), i)
    else if i < 32 then ((d &&& b) ||| (not32 d &&& c), (5 * i + 1) % 16)
    else if i < 48 then (b ^^^ c ^^^ d, (3 * i + 5) % 16)
    else (c ^^^ (b ||| not32 d), (7 * i) % 16)
  let f := (fg.1 + a + md5K.getD i 0 + leWord chunk fg.2) % 4294967296
  (d, add32 b (rotl32 f (md5S.getD i 0)), b, c)

/-- The MD5 compression of one 64-byte chunk. -/
def md5Chunk (st : Nat × Nat × Nat × Nat) (chunk : List Nat) :
    Nat × Nat × Nat × Nat :=
  let r := (List.range 64).foldl (md5Step chunk) st
  (add32 st.1 r.1, add32 st.2.1 r.2.1, add32 st.2.2.1 r.2.2.1, add32 st.2.2.2 r.2.2.2)

/-- Split a byte list into 64-byte chunks. -/
def toChunks (l : List Nat) : List (List Nat) :=
  match l with
  | [] => []
  | x :: t => (x :: t).take 64 :: toChunks ((x :: t).drop 64)
termination_by l.length
decreasing_by
  simp [List.length_drop]
  omega

/-- MD5 digest (16 bytes) of a byte list. -/
def md5Bytes (msg : List Nat) : List Nat :=
  let st := (toChunks (md5Pad msg)).foldl md5Chunk
    (1732584193, 4023233417, 2562383102, 271733878)
  leBytes st.1 4 ++ leBytes st.2.1 4 ++ leBytes st.2.2.1 4 ++ leBytes st.2.2.2 4

/-- Hex character of a value below 16. -/
def hexDigitChar (n : Nat) : Char := "0123456789abcdef".data.getD n '0'

/-- Two lowercase hex characters of one byte. -/
def byteToHex (b : Nat) : List Char := [hexDigitChar (b / 16), hexDigitChar (b % 16)]

/-- Embedding of `hashlib.md5(s.encode("utf-8")).hexdigest()`. -/
def md5hex (s : String) : String :=
  ⟨(md5Bytes (utf8Encode s)).foldr (fun b acc => byteToHex b ++ acc) []⟩

/-- Embedding of `utils.generate_cache_key`: the lowercase hex MD5 of the key string
built from the normalized text, normalized language codes and the
canonicalized relevant options. -/
def generate_cache_key (text source_lang target_lang : String)
    (options : List (String × OptVal)) : String :=
  md5hex (cacheKeyString text source_lang target_lang options)

/-! ## cache.py — stats record and error model -/

/-- An uncaught Python exception escaping a cache operation. -/
inductive PyErr where
  /-- `KeyError`, raised by `OrderedDict.popitem` on an empty dict. -/
  | keyError
  /-- `IndexError`, raised by `sorted_items[0]` on an empty list. -/
  | indexError
  /-- `IOError` / `OSError` from a file operation. -/
  | ioError
  /-- `sqlite3.OperationalError` from the database driver. -/
  | operationalError
  /-- `TypeError`, raised when a non-callable object is called. -/
  | typeError
  /-- `AttributeError`, raised when an attribute is missing. -/
  | attributeError
deriving DecidableEq, Repr

/-- The `CacheStats` dataclass: counters shared by all backends.
`size_mb` keeps its dataclass default; the backends never assign it. -/
structure CacheStats where
  total_entries : Nat := 0
  hits : Nat := 0
  misses : Nat := 0
  size_mb : ℚ := 0
deriving DecidableEq, Repr

/-- The `hit_rate` property of `CacheStats`: `hits / (hits + misses)`,
and `0` when there have been no lookups. -/
def CacheStats.hit_rate (s : CacheStats) : ℚ :=
  if 0 < s.hits + s.misses then (s.hits : ℚ) / ((s.hits : ℚ) + (s.misses : ℚ)) else 0

/-- Embedding of `self._is_expired(timestamp)`: strictly older than `ttl` seconds. -/
def isExpired (ttl now timestamp : Int) : Bool := ttl < now - timestamp

/-! ## MemoryCache — LRU over an OrderedDict -/

/-- The state of a `MemoryCache`: configuration fixed at construction,
the ordered dict `_cache` mapping cache key to
`(translated, timestamp)` with the least recently used entry at the
front, and the stats counters. -/
structure MemState where
  max_size : Nat
  ttl : Int
  cache : List (String × String × Int)
  stats : CacheStats
deriving DecidableEq, Repr

/-- A freshly constructed `MemoryCache(max_size, ttl)`. -/
def memEmpty (max_size : Nat) (ttl : Int) : MemState :=
  { max_size := max_size, ttl := ttl, cache := [], stats := {} }

/-- The eviction loop of `MemoryCache.set`:
`while len(self._cache) >= self.max_size: self._cache.popitem(last=False)`.
`popitem` on an empty dict raises `KeyError`; otherwise it removes the
front (least recently used) entry. -/
def popWhileFull (max_size : Nat) : List α → Except PyErr (List α)
  | [] => if max_size = 0 then .error .keyError else .ok []
  | x :: t =>
    if max_size ≤ (x :: t).length then popWhileFull max_size t
    else .ok (x :: t)

/-- Embedding of `MemoryCache.get` at the cache-key level: miss on absent key; an
expired entry is deleted and counted as a miss; a live entry is moved to
the most recently used end and counted as a hit. -/
def memGetK (st : MemState) (key : String) (now : Int) :
    MemState × Option String :=
  match assocFind key st.cache with
  | none =>
    ({ st with stats := { st.stats with misses := st.stats.misses + 1 } }, none)
  | some (translated, timestamp) =>
    if isExpired st.ttl now timestamp then
      ({ st with cache := eraseKey key st.cache,
                 stats := { st.stats with misses := st.stats.misses + 1 } }, none)
    else
      ({ st with cache := eraseKey key st.cache ++ [(key, translated, timestamp)],
                 stats := { st.stats with hits := st.stats.hits + 1 } },
       some translated)

/-- Embedding of `MemoryCache.set` at the cache-key level: delete any existing binding
for the key, run the eviction loop, then append the new entry at the most
recently used end and refresh `stats.total_entries`. -/
def memSetK (st : MemState) (key translated : String) (now : Int) :
    Except PyErr MemState :=
  let c1 := eraseKey key st.cache
  match popWhileFull st.max_size c1 with
  | .error e => .error e
  | .ok c2 =>
    let c3 := c2 ++ [(key, translated, now)]
    .ok { st with cache := c3,
                  stats := { st.stats with total_entries := c3.length } }

/-- Embedding of `MemoryCache.clear`: with no pattern, drop everything and return the
prior count; with a pattern, delete the entries whose cache KEY contains
the pattern as a substring (the code matches against the opaque key, not
against any recorded language). -/
def memClear (st : MemState) (pattern : Option String) : MemState × Nat :=
  match pattern with
  | none =>
    ({ st with cache := [],
               stats := { st.stats with total_entries := 0 } }, st.cache.length)
  | some p =>
    let remaining := st.cache.filter (fun e => ¬ strContains p e.1)
    let count := (st.cache.filter (fun e => strContains p e.1)).length
    ({ st with cache := remaining,
               stats := { st.stats with total_entries := remaining.length } }, count)

/-- Embedding of `MemoryCache.get` as called by the translation layer: derive the key
from the request, then look up. -/
def MemoryCache.get (st : MemState) (text source_lang target_lang : String)
    (options : List (String × OptVal)) (now : Int) : MemState × Option String :=
  memGetK st (generate_cache_key text source_lang target_lang options) now

/-- Embedding of `MemoryCache.set` as called by the translation layer. -/
def MemoryCache.set (st : MemState) (text source_lang target_lang translated : String)
    (options : List (String × OptVal)) (now : Int) : Except PyErr MemState :=
  memSetK st (generate_cache_key text source_lang target_lang options) translated now

/-! ## FileCache — one file per entry plus a JSON index -/

/-- One index record of `FileCache`: the metadata stored in `index.json`
for a cache key. -/
structure FileMeta where
  timestamp : Int
  source_lang : String
  target_lang : String
deriving DecidableEq, Repr

/-- The state of a `FileCache`: the in-memory `_index` (mirrored to
`index.json`), the entry files on disk (`<key>.txt` mapped to their
contents), and the stats counters. -/
structure FileState where
  max_size : Nat
  ttl : Int
  index : List (String × FileMeta)
  files : List (String × String)
  stats : CacheStats
deriving DecidableEq, Repr

/-- A freshly constructed `FileCache` over an empty cache directory (a
missing or corrupt index loads as empty, and the startup sweep of an
empty index removes nothing). -/
def fileEmpty (max_size : Nat) (ttl : Int) : FileState :=
  { max_size := max_size, ttl := ttl, index := [], files := [], stats := {} }

/-- Embedding of `FileCache.get` at the cache-key level.  Absent from the index: miss.
Expired: delete the entry file (if present) and the index record, miss.
Index present but the backing file is missing: self-heal by dropping the
stale index record, miss.  Otherwise read the file; `readOk = false`
models an `IOError` during the read, which is caught and counted as a
miss with no state change. -/
def fileGetK (st : FileState) (key : String) (now : Int) (readOk : Bool) :
    FileState × Option String :=
  match assocFind key st.index with
  | none =>
    ({ st with stats := { st.stats with misses := st.stats.misses + 1 } }, none)
  | some metadata =>
    if isExpired st.ttl now metadata.timestamp then
      ({ st with files := eraseKey key st.files,
                 index := eraseKey key st.index,
                 stats := { st.stats with misses := st.stats.misses + 1 } }, none)
    else
      match assocFind key st.files with
      | none =>
        ({ st with index := eraseKey key st.index,
                   stats := { st.stats with misses := st.stats.misses + 1 } }, none)
      | some translated =>
        if readOk then
          ({ st with stats := { st.stats with hits := st.stats.hits + 1 } },
           some translated)
        else
          ({ st with stats := { st.stats with misses := st.stats.misses + 1 } }, none)

/-- The eviction prologue of `FileCache.set`: at capacity the entry whose
index timestamp is globally smallest (stable order on ties) is deleted,
file first, index record second.  `sorted_items[0]` raises `IndexError`
on an empty index (only reachable with `max_size = 0`), and unlinking the
evicted file sits outside the `try`, so `unlinkOk = false` models an
uncaught `OSError` there when that file exists. -/
def fileEvict (st : FileState) (unlinkOk : Bool) :
    Except PyErr (List (String × FileMeta) × List (String × String)) :=
  if st.max_size ≤ st.index.length then
    match sortBy (fun p => p.2.timestamp) st.index with
    | [] => .error .indexError
    | (oldest, _) :: _ =>
      if (assocFind oldest st.files).isSome ∧ unlinkOk = false then .error .ioError
      else .ok (eraseKey oldest st.index, eraseKey oldest st.files)
  else .ok (st.index, st.files)

/-- Embedding of `FileCache.set` at the cache-key level: run the eviction prologue,
then write the new entry file and store the index record, refreshing
`stats.total_entries`; `writeOk = false` models an `IOError` during the
write, which is caught and silently dropped (the index is only updated
inside the `try`, after the successful write). -/
def fileSetK (st : FileState) (key source_lang target_lang translated : String)
    (now : Int) (writeOk unlinkOk : Bool) : Except PyErr FileState :=
  match fileEvict st unlinkOk with
  | .error e => .error e
  | .ok (index1, files1) =>
    if writeOk then
      let index2 := updAssoc key ⟨now, source_lang, target_lang⟩ index1
      .ok { st with index := index2,
                    files := updAssoc key translated files1,
                    stats := { st.stats with total_entries := index2.length } }
    else
      .ok { st with index := index1, files := files1 }

/-- Embedding of `FileCache.clear`: with no pattern, delete every indexed entry file,
empty the index and return the prior count; with a pattern, delete
exactly the entries whose recorded source or target language contains the
pattern. -/
def fileClear (st : FileState) (pattern : Option String) : FileState × Nat :=
  match pattern with
  | none =>
    let files1 := st.files.filter (fun f => (assocFind f.1 st.index).isNone)
    ({ st with index := [], files := files1,
               stats := { st.stats with total_entries := 0 } }, st.index.length)
  | some p =>
    let hit := fun (m : FileMeta) =>
      strContains p m.source_lang || strContains p m.target_lang
    let deleted := st.index.filter (fun e => hit e.2)
    let index1 := st.index.filter (fun e => ¬ hit e.2)
    let files1 := st.files.filter (fun f =>
      match assocFind f.1 st.index with
      | some m => ¬ hit m
      | none => true)
    ({ st with index := index1, files := files1,
               stats := { st.stats with total_entries := index1.length } },
     deleted.length)

/-- Embedding of `FileCache.get` as called by the translation layer. -/
def FileCache.get (st : FileState) (text source_lang target_lang : String)
    (options : List (String × OptVal)) (now : Int) (readOk : Bool) :
    FileState × Option String :=
  fileGetK st (generate_cache_key text source_lang target_lang options) now readOk

/-- Embedding of `FileCache.set` as called by the translation layer. -/
def FileCache.set (st : FileState) (text source_lang target_lang translated : String)
    (options : List (String × OptVal)) (now : Int) (writeOk unlinkOk : Bool) :
    Except PyErr FileState :=
  fileSetK st (generate_cache_key text source_lang target_lang options)
    source_lang target_lang translated now writeOk unlinkOk

/-! ## SQLiteCache — a single translations table -/

/-- One row of the `translations` table. -/
structure SqRow where
  cache_key : String
  original_text : String
  translated_text : String
  source_lang : String
  target_lang : String
  timestamp : Int
  options_json : Option String
deriving DecidableEq, Repr

/-- The state of a `SQLiteCache`: the rows of the `translations` table in
rowid (insertion) order, plus the stats counters. -/
structure SqState where
  max_size : Nat
  ttl : Int
  rows : List SqRow
  stats : CacheStats
deriving DecidableEq, Repr

/-- A freshly constructed `SQLiteCache` over a new database file (schema
creation on an empty table, then an expiry sweep that removes nothing). -/
def sqEmpty (max_size : Nat) (ttl : Int) : SqState :=
  { max_size := max_size, ttl := ttl, rows := [], stats := {} }

/-- Embedding of `SELECT ... WHERE cache_key = ?` point lookup. -/
def findRow (key : String) : List SqRow → Option SqRow
  | [] => none
  | r :: t => if r.cache_key = key then some r else findRow key t

/-- Embedding of `DELETE FROM translations WHERE cache_key = ?`; the key is the
primary key, so this removes the one matching row. -/
def eraseRow (key : String) (rows : List SqRow) : List SqRow :=
  rows.filter (fun r => r.cache_key ≠ key)

/-- Embedding of `SQLiteCache.get` at the cache-key level: point lookup; an expired
row is deleted and counted as a miss; a live row is a hit. -/
def sqliteGetK (st : SqState) (key : String) (now : Int) :
    SqState × Option String :=
  match findRow key st.rows with
  | none =>
    ({ st with stats := { st.stats with misses := st.stats.misses + 1 } }, none)
  | some r =>
    if isExpired st.ttl now r.timestamp then
      ({ st with rows := eraseRow key st.rows,
                 stats := { st.stats with misses := st.stats.misses + 1 } }, none)
    else
      ({ st with stats := { st.stats with hits := st.stats.hits + 1 } },
       some r.translated_text)

/-- The eviction prologue of `SQLiteCache.set`: when the row count is at
or above `max_size`, delete the single row with the smallest timestamp
(stable order on ties; a no-op on an empty table, where the subquery
yields NULL). -/
def sqEvictRows (st : SqState) : List SqRow :=
  if st.max_size ≤ st.rows.length then
    match sortBy (fun r => r.timestamp) st.rows with
    | [] => st.rows
    | oldest :: _ => eraseRow oldest.cache_key st.rows
  else st.rows

/-- Embedding of `SQLiteCache.set` at the cache-key level: the method performs no
exception handling, so `ioOk = false` (the database medium is not
writable) makes the whole call raise `sqlite3.OperationalError`;
otherwise run the eviction prologue, then `INSERT OR REPLACE` removes any
row with the same key and appends the fresh row, and
`stats.total_entries` is set to the PRIOR count plus one. -/
def sqliteSetK (st : SqState) (key text translated source_lang target_lang : String)
    (options_json : Option String) (now : Int) (ioOk : Bool) :
    Except PyErr SqState :=
  if ioOk then
    .ok { st with
          rows := eraseRow key (sqEvictRows st) ++
            [⟨key, text, translated, source_lang, target_lang, now, options_json⟩],
          stats := { st.stats with total_entries := st.rows.length + 1 } }
  else .error .operationalError

/-- Embedding of `SQLiteCache.clear`: no pattern deletes all rows and returns the
prior count; a pattern deletes rows whose source or target language
contains it (`LIKE '%p%'`, modelled for patterns without LIKE
metacharacters), returning the number of rows affected.  The code then
resets `stats.total_entries` to `0` in both cases. -/
def sqliteClear (st : SqState) (pattern : Option String) : SqState × Nat :=
  match pattern with
  | none =>
    ({ st with rows := [], stats := { st.stats with total_entries := 0 } },
     st.rows.length)
  | some p =>
    let hit := fun (r : SqRow) =>
      strContains p r.source_lang || strContains p r.target_lang
    let remaining := st.rows.filter (fun r => ¬ hit r)
    ({ st with rows := remaining,
               stats := { st.stats with total_entries := 0 } },
     (st.rows.filter hit).length)

/-- Embedding of `SQLiteCache.get` as called by the translation layer. -/
def SQLiteCache.get (st : SqState) (text source_lang target_lang : String)
    (options : List (String × OptVal)) (now : Int) : SqState × Option String :=
  sqliteGetK st (generate_cache_key text source_lang target_lang options) now

/-- Embedding of `SQLiteCache.set` as called by the translation layer:
`options_json = json.dumps(options) if options else None`. -/
def SQLiteCache.set (st : SqState) (text source_lang target_lang translated : String)
    (options : List (String × OptVal)) (now : Int) (ioOk : Bool) :
    Except PyErr SqState :=
  sqliteSetK st (generate_cache_key text source_lang target_lang options)
    text translated source_lang target_lang
    (if options.isEmpty then none else some (jsonDumpsPlain options)) now ioOk

/-! ## The stats() call — Python attribute resolution

`TranslationCache.__init__` executes `self.stats = CacheStats()`, placing
a `CacheStats` value in the instance dict under the name `stats`; the
class body defines a method of the same name.  A plain function in the
class dict is a non-data descriptor, so Python resolves the instance
attribute first, and calling the resulting `CacheStats` value raises
`TypeError` because a dataclass instance is not callable. -/

/-- The record the memory backend stats method would return (dict keys
`total_entries`, `hits`, `misses`, `hit_rate`, `size_mb`, `type`, plus
backend-specific location info for the other backends). -/
structure StatsD where
  total_entries : Nat
  hits : Nat
  misses : Nat
  hit_rate : ℚ
  size_mb : ℚ
  kind : String
  location : Option String
deriving DecidableEq, Repr

/-- Embedding of `json.dumps` of one `_cache` entry (a tuple renders as a JSON list). -/
def jsonOfMemEntry (e : String × String × Int) : String :=
  "\"" ++ jsonEscape e.1 ++ "\": [\"" ++ jsonEscape e.2.1 ++ "\", " ++
    toString e.2.2 ++ "]"

/-- Embedding of `json.dumps(dict(self._cache))`, used by the memory stats method for
its size estimate. -/
def jsonDumpMemCache (c : List (String × String × Int)) : String :=
  "\x7b" ++ String.intercalate ", " (c.map jsonOfMemEntry) ++ "\x7d"

/-- The body of the (shadowed) `MemoryCache.stats` method. -/
def memStatsMethod (st : MemState) : StatsD :=
  { total_entries := st.stats.total_entries
    hits := st.stats.hits
    misses := st.stats.misses
    hit_rate := st.stats.hit_rate
    size_mb := ((jsonDumpMemCache st.cache).length : ℚ) / 1048576
    kind := "memory"
    location := none }

/-- A value an attribute name can resolve to during this call: the
`CacheStats` dataclass instance stored by `__init__`, or a callable
method from the class dict. -/
inductive PyAttr where
  | statsObj (s : CacheStats)
  | method (f : MemState → StatsD)

/-- The relevant binding of the instance dict of any constructed backend:
`__init__` ran `self.stats = CacheStats()`, and later code only mutates
fields of that object, never rebinds the name. -/
def memInstanceDict (s : CacheStats) : List (String × PyAttr) :=
  [("stats", .statsObj s)]

/-- The relevant binding of the class dict: the `def stats(self)` method. -/
def memClassDict : List (String × PyAttr) :=
  [("stats", .method memStatsMethod)]

/-- Python attribute lookup for a name bound to a plain function in the
class: the instance dict wins over the class dict (functions are non-data
descriptors). -/
def pyGetattr (instDict classDict : List (String × PyAttr)) (name : String) :
    Option PyAttr :=
  match assocFind name instDict with
  | some v => some v
  | none => assocFind name classDict

/-- Calling whatever the attribute resolved to: a method runs; a
`CacheStats` dataclass instance is not callable, so the call raises
`TypeError`; a missing attribute raises `AttributeError`. -/
def pyCallAttr (attr : Option PyAttr) (st : MemState) : Except PyErr StatsD :=
  match attr with
  | some (.method f) => .ok (f st)
  | some (.statsObj _) => .error .typeError
  | none => .error .attributeError

/-- Embedding of `cache.stats()` on a constructed `MemoryCache` whose stats counters
currently hold `s`: resolve the name `stats`, then call the result. -/
def MemoryCache.statsCall (s : CacheStats) (st : MemState) : Except PyErr StatsD :=
  pyCallAttr (pyGetattr (memInstanceDict s) memClassDict "stats") st

/-- A memory cache holding exactly the cached translation of the request
`("hello", "zh", "en")`, keyed as `MemoryCache.set` would key it. -/
def memStateZh : MemState :=
  { max_size := 10000, ttl := 86400,
    cache := [(generate_cache_key "hello" "zh" "en" [], "nihao", 0)],
    stats := {} }

/-! ## Capacity machinery for the bound and exact-fill properties -/

/-- A sequence of `MemoryCache.set` calls at the cache-key level over
(key, translated) pairs. -/
def memSetAllK (st : MemState) (items : List (String × String)) (now : Int) :
    Except PyErr MemState :=
  match items with
  | [] => .ok st
  | (k, v) :: t =>
    match memSetK st k v now with
    | .error e => .error e
    | .ok st1 => memSetAllK st1 t now

/-- A sequence of `SQLiteCache.set` calls at the cache-key level over
(key, translated) pairs, with fixed original text and language pair. -/
def sqliteSetAllK (st : SqState) (text source_lang target_lang : String)
    (items : List (String × String)) (now : Int) : Except PyErr SqState :=
  match items with
  | [] => .ok st
  | (k, v) :: t =>
    match sqliteSetK st k text v source_lang target_lang none now true with
    | .error e => .error e
    | .ok st1 => sqliteSetAllK st1 text source_lang target_lang t now

/-! ## Supporting lemmas -/

theorem assocFind_eq_none_of_forall {l : List (String × α)}
    (h : ∀ p ∈ l, p.1 ≠ k) : assocFind k l = none := by
  induction l with
  | nil => rfl
  | cons q t ih =>
    obtain ⟨k', v⟩ := q
    have hq : k' ≠ k := h (k', v) (List.mem_cons_self _ _)
    simp only [assocFind, if_neg hq]
    exact ih fun p hp => h p (List.mem_cons_of_mem _ hp)

theorem assocFind_append_fresh {l : List (String × α)} {v : α}
    (h : ∀ p ∈ l, p.1 ≠ k) : assocFind k (l ++ [(k, v)]) = some v := by
  induction l with
  | nil => simp [assocFind]
  | cons q t ih =>
    obtain ⟨k', v'⟩ := q
    have hq : k' ≠ k := h (k', v') (List.mem_cons_self _ _)
    simp only [List.cons_append, assocFind, if_neg hq]
    exact ih fun p hp => h p (List.mem_cons_of_mem _ hp)

theorem mem_eraseKey_ne {l : List (String × α)} {p : String × α}
    (h : p ∈ eraseKey k l) : p.1 ≠ k := by
  have := (List.mem_filter.mp h).2
  simpa using this

theorem assocFind_updAssoc_self (k : String) (v : α) (l : List (String × α)) :
    assocFind k (updAssoc k v l) = some v := by
  induction l with
  | nil => simp [updAssoc, assocFind]
  | cons q t ih =>
    obtain ⟨k', v'⟩ := q
    by_cases hq : k' = k
    · simp [updAssoc, hq, assocFind]
    · simp [updAssoc, hq, assocFind, ih]

theorem length_updAssoc (k : String) (v : α) (l : List (String × α)) :
    (updAssoc k v l).length = if (assocFind k l).isSome then l.length else l.length + 1 := by
  induction l with
  | nil => simp [updAssoc, assocFind]
  | cons q t ih =>
    obtain ⟨k', v'⟩ := q
    by_cases hq : k' = k
    · simp [updAssoc, hq, assocFind]
    · simp only [updAssoc, if_neg hq, assocFind, List.length_cons, ih]
      by_cases hf : (assocFind k t).isSome <;> simp [hf]

theorem popWhileFull_zero (l : List α) :
    popWhileFull 0 l = .error .keyError := by
  induction l with
  | nil => rfl
  | cons x t ih => simpa [popWhileFull] using ih

theorem popWhileFull_ok {m : Nat} (h : 1 ≤ m) (l : List α) :
    ∃ l', popWhileFull m l = .ok l' ∧ l'.length = min l.length (m - 1) ∧
      ∀ x ∈ l', x ∈ l := by
  induction l with
  | nil =>
    refine ⟨[], ?_, ?_, by simp⟩
    · simp [popWhileFull]
      omega
    · simp
  | cons x t ih =>
    by_cases hc : m ≤ t.length + 1
    · obtain ⟨l', h1, h2, h3⟩ := ih
      refine ⟨l', ?_, ?_, fun y hy => List.mem_cons_of_mem _ (h3 y hy)⟩
      · show (if m ≤ (x :: t).length then popWhileFull m t else .ok (x :: t)) = .ok l'
        rw [if_pos (by simpa using hc)]
        exact h1
      · simp only [List.length_cons]
        omega
    · refine ⟨x :: t, ?_, ?_, fun y hy => hy⟩
      · show (if m ≤ (x :: t).length then popWhileFull m t else .ok (x :: t)) = .ok (x :: t)
        rw [if_neg (by simpa using hc)]
      · simp only [List.length_cons]
        omega

theorem length_filter_ne_of_nodup_mem (f : α → String) [DecidableEq α]
    {l : List α} {p : α} (hd : (l.map f).Nodup) (hm : p ∈ l) :
    (l.filter (fun x => f x ≠ f p)).length + 1 = l.length := by
  induction l with
  | nil => cases hm
  | cons q t ih =>
    simp only [List.map_cons, List.nodup_cons] at hd
    rcases List.mem_cons.mp hm with hpq | hpt
    · subst hpq
      have ht : ∀ a ∈ t, f a ≠ f p :=
        fun a ha hfa => hd.1 (hfa ▸ List.mem_map_of_mem f ha)
      have ht2 : t.filter (fun x => decide (f x ≠ f p)) = t :=
        List.filter_eq_self.mpr fun a ha => by simpa using ht a ha
      simp only [List.filter_cons]
      have hdp : (decide (f p ≠ f p)) = false := by simp
      rw [hdp]
      simp only [Bool.false_eq_true, if_false, ht2, List.length_cons]
    · have hfq : f q ≠ f p := fun hq => hd.1 (hq ▸ List.mem_map_of_mem f hpt)
      have hrec := ih hd.2 hpt
      simp only [List.filter_cons]
      have hdq : (decide (f q ≠ f p)) = true := by simpa using hfq
      rw [hdq]
      simp only [if_pos, List.length_cons]
      omega

theorem insertBy_ne_nil (f : α → Int) (p : α) (l : List α) :
    insertBy f p l ≠ [] := by
  cases l with
  | nil => simp [insertBy]
  | cons q t =>
    simp only [insertBy]
    by_cases hc : f p ≤ f q <;> simp [hc]

theorem sortBy_ne_nil (f : α → Int) {l : List α} (h : l ≠ []) :
    sortBy f l ≠ [] := by
  cases l with
  | nil => exact absurd rfl h
  | cons q t => exact insertBy_ne_nil f q (sortBy f t)

theorem mem_of_mem_insertBy {f : α → Int} {p x : α} {l : List α}
    (h : x ∈ insertBy f p l) : x = p ∨ x ∈ l := by
  induction l with
  | nil => simpa [insertBy] using h
  | cons q t ih =>
    simp only [insertBy] at h
    by_cases hc : f p ≤ f q
    · simpa [hc] using h
    · simp only [if_neg hc, List.mem_cons] at h
      rcases h with h | h
      · exact Or.inr (h ▸ List.mem_cons_self _ _)
      · rcases ih h with h' | h'
        · exact Or.inl h'
        · exact Or.inr (List.mem_cons_of_mem _ h')

theorem mem_of_mem_sortBy {f : α → Int} {x : α} {l : List α}
    (h : x ∈ sortBy f l) : x ∈ l := by
  induction l with
  | nil => simp [sortBy] at h
  | cons q t ih =>
    simp only [sortBy] at h
    rcases mem_of_mem_insertBy h with h' | h'
    · exact h' ▸ List.mem_cons_self _ _
    · exact List.mem_cons_of_mem _ (ih h')

theorem findRow_eq_none_of_forall {rows : List SqRow}
    (h : ∀ r ∈ rows, r.cache_key ≠ k) : findRow k rows = none := by
  induction rows with
  | nil => rfl
  | cons r t ih =>
    simp only [findRow, if_neg (h r (List.mem_cons_self _ _))]
    exact ih fun r' hr' => h r' (List.mem_cons_of_mem _ hr')

theorem findRow_append_fresh {rows : List SqRow} {row : SqRow}
    (h : ∀ r ∈ rows, r.cache_key ≠ k) (hk : row.cache_key = k) :
    findRow k (rows ++ [row]) = some row := by
  induction rows with
  | nil => simp [findRow, hk]
  | cons r t ih =>
    simp only [List.cons_append, findRow, if_neg (h r (List.mem_cons_self _ _))]
    exact ih fun r' hr' => h r' (List.mem_cons_of_mem _ hr')

theorem mem_eraseRow_ne {rows : List SqRow} {r : SqRow}
    (h : r ∈ eraseRow k rows) : r.cache_key ≠ k := by
  have := (List.mem_filter.mp h).2
  simpa using this

theorem hexDigitChar_ne_z (n : Nat) : hexDigitChar n ≠ 'z' := by
  by_cases h : n < 16
  · interval_cases n <;> decide
  · unfold hexDigitChar
    rw [List.getD_eq_default]
    · decide
    · simpa using Nat.le_of_not_lt h

theorem mem_hexFold_exists {c : Char} {l : List Nat}
    (h : c ∈ List.foldr (fun b acc => byteToHex b ++ acc) [] l) :
    ∃ n, c = hexDigitChar n := by
  induction l with
  | nil => cases h
  | cons b t ih =>
    simp only [List.foldr_cons, byteToHex, List.cons_append, List.mem_cons] at h
    rcases h with h | h | h
    · exact ⟨b / 16, h⟩
    · exact ⟨b % 16, h⟩
    · exact ih (by simpa using h)

theorem md5hex_no_z {c : Char} {s : String} (h : c ∈ (md5hex s).data) : c ≠ 'z' := by
  obtain ⟨n, hn⟩ := mem_hexFold_exists (by simpa [md5hex] using h)
  exact hn ▸ hexDigitChar_ne_z n

theorem containsSub_head_absent {c0 : Char} {p hay : List Char}
    (h : ∀ c ∈ hay, c ≠ c0) : containsSub (c0 :: p) hay = false := by
  induction hay with
  | nil => rfl
  | cons c t ih =>
    have hc : (decide (c0 = c)) = false :=
      decide_eq_false fun he => h c (List.mem_cons_self _ _) he.symm
    simp only [containsSub, isPrefixList, hc, Bool.false_and, Bool.false_or]
    exact ih fun c' hc' => h c' (List.mem_cons_of_mem _ hc')

theorem strContains_zh_md5hex (s : String) : strContains "zh" (md5hex s) = false := by
  have : ("zh" : String).data = 'z' :: ['h'] := rfl
  rw [strContains, this]
  exact containsSub_head_absent fun c hc => md5hex_no_z hc

theorem pipeSplit {a1 a2 r1 r2 : List Char} (h1 : '|' ∉ a1) (h2 : '|' ∉ a2)
    (he : a1 ++ '|' :: r1 = a2 ++ '|' :: r2) : a1 = a2 ∧ r1 = r2 := by
  induction a1 generalizing a2 with
  | nil =>
    cases a2 with
    | nil => simpa using he
    | cons c t =>
      simp only [List.nil_append, List.cons_append, List.cons.injEq] at he
      exact absurd (show ('|' : Char) ∈ c :: t by
        rw [he.1]; exact List.mem_cons_self _ _) h2
  | cons c t ih =>
    cases a2 with
    | nil =>
      simp only [List.cons_append, List.nil_append, List.cons.injEq] at he
      exact absurd (List.mem_cons_self c t) (he.1 ▸ h1)
    | cons c' t' =>
      simp only [List.cons_append, List.cons.injEq] at he
      have hrec := ih (fun hm => h1 (List.mem_cons_of_mem _ hm))
        (fun hm => h2 (List.mem_cons_of_mem _ hm)) he.2
      exact ⟨by rw [he.1, hrec.1], hrec.2⟩

theorem relevantOptions_nil : relevantOptions [] = [] := rfl

theorem relevantOptions_congr {o1 o2 : List (String × OptVal)}
    (h : ∀ k ∈ allowedOptionKeys, assocFind k o1 = assocFind k o2) :
    relevantOptions o1 = relevantOptions o2 := by
  have h1 := h "formality" (by simp [allowedOptionKeys])
  have h2 := h "domain" (by simp [allowedOptionKeys])
  have h3 := h "preserve_formatting" (by simp [allowedOptionKeys])
  simp only [relevantOptions, allowedOptionKeys, List.filterMap, h1, h2, h3]

theorem relevantOptions_ne_nil_imp {o : List (String × OptVal)}
    (h : relevantOptions o ≠ []) : o ≠ [] := by
  intro ho
  exact h (ho ▸ relevantOptions_nil)

theorem cacheKeyString_parts (text source_lang target_lang : String)
    (o : List (String × OptVal)) :
    cacheKeyString text source_lang target_lang o =
      pyJoin "|" ([preprocess_text text, normalize_language_code source_lang,
        normalize_language_code target_lang] ++
        (if (relevantOptions o).isEmpty then []
         else [jsonDumpsSorted (relevantOptions o)])) := by
  unfold cacheKeyString
  cases o with
  | nil => simp [relevantOptions_nil]
  | cons p t =>
    simp only [List.isEmpty_cons]
    by_cases hr : (relevantOptions (p :: t)).isEmpty <;> simp [hr]

theorem pyJoin3_data (a b c : String) :
    (pyJoin "|" [a, b, c]).data = a.data ++ '|' :: (b.data ++ '|' :: c.data) := by
  show (a ++ "|" ++ (b ++ "|" ++ c)).data = _
  simp [String.data_append]

theorem pyJoin4_data (a b c d : String) :
    (pyJoin "|" [a, b, c, d]).data =
      a.data ++ '|' :: (b.data ++ '|' :: (c.data ++ '|' :: d.data)) := by
  show (a ++ "|" ++ (b ++ "|" ++ (c ++ "|" ++ d))).data = _
  simp [String.data_append]

theorem fileEvict_not_full {st : FileState} (h : st.index.length < st.max_size)
    (u : Bool) : fileEvict st u = .ok (st.index, st.files) := by
  simp [fileEvict, Nat.not_le.mpr h]

theorem fileEvict_true_ok (st : FileState) (h1 : 1 ≤ st.max_size) :
    ∃ idx fls, fileEvict st true = .ok (idx, fls) := by
  by_cases hc : st.max_size ≤ st.index.length
  · have hne : st.index ≠ [] := by
      intro h0
      rw [h0] at hc
      simp at hc
      omega
    rcases heq : sortBy (fun p => p.2.timestamp) st.index with _ | ⟨⟨oldest, m⟩, rest⟩
    · exact absurd heq (sortBy_ne_nil _ hne)
    · exact ⟨eraseKey oldest st.index, eraseKey oldest st.files,
        by simp [fileEvict, hc, heq]⟩
  · exact ⟨_, _, fileEvict_not_full (Nat.not_le.mp hc) true⟩

theorem fileEvict_cases {st : FileState} {u : Bool}
    {idx : List (String × FileMeta)} {fls : List (String × String)}
    (h : fileEvict st u = .ok (idx, fls)) :
    (st.index.length < st.max_size ∧ idx = st.index ∧ fls = st.files) ∨
    (st.max_size ≤ st.index.length ∧ ∃ p ∈ st.index,
      idx = eraseKey p.1 st.index ∧ fls = eraseKey p.1 st.files) := by
  by_cases hc : st.max_size ≤ st.index.length
  · right
    refine ⟨hc, ?_⟩
    rcases heq : sortBy (fun p => p.2.timestamp) st.index with _ | ⟨⟨oldest, m⟩, rest⟩
    · simp only [fileEvict, if_pos hc, heq] at h
      cases h
    · simp only [fileEvict, if_pos hc, heq] at h
      by_cases hu : (assocFind oldest st.files).isSome ∧ u = false
      · rw [if_pos hu] at h
        cases h
      · rw [if_neg hu] at h
        simp only [Except.ok.injEq, Prod.mk.injEq] at h
        exact ⟨(oldest, m), mem_of_mem_sortBy (heq ▸ List.mem_cons_self _ _),
          h.1.symm, h.2.symm⟩
  · left
    simp only [fileEvict, if_neg hc] at h
    simp only [Except.ok.injEq, Prod.mk.injEq] at h
    exact ⟨Nat.not_le.mp hc, h.1.symm, h.2.symm⟩

theorem sqEvictRows_cases (st : SqState) :
    sqEvictRows st = st.rows ∨
    ∃ r ∈ st.rows, sqEvictRows st = eraseRow r.cache_key st.rows := by
  by_cases hc : st.max_size ≤ st.rows.length
  · rcases heq : sortBy (fun r => r.timestamp) st.rows with _ | ⟨oldest, rest⟩
    · left
      simp [sqEvictRows, hc, heq]
    · right
      exact ⟨oldest, mem_of_mem_sortBy (heq ▸ List.mem_cons_self _ _),
        by simp [sqEvictRows, hc, heq]⟩
  · left
    simp [sqEvictRows, hc]

/-! ## Claim theorems -/

/-- Claim C10: for a `MemoryCache` constructed with `max_size = 0`, every
call to `set` raises an uncaught `KeyError` — the eviction loop condition
`len >= 0` always holds, so `popitem(last=False)` is eventually called on
an already empty `OrderedDict` — while for `max_size ≥ 1` the eviction
loop terminates before emptying the dict and `set` completes normally. -/
theorem C10_memory_set_zero_capacity :
    (∀ (st : MemState) (text source_lang target_lang translated : String)
      (options : List (String × OptVal)) (now : Int),
      st.max_size = 0 →
      MemoryCache.set st text source_lang target_lang translated options now =
        .error .keyError) ∧
    (∀ (st : MemState) (text source_lang target_lang translated : String)
      (options : List (String × OptVal)) (now : Int),
      1 ≤ st.max_size →
      ∃ st', MemoryCache.set st text source_lang target_lang translated options now =
        .ok st') := by
  constructor
  · intro st text sl tl tr o now h0
    simp [MemoryCache.set, memSetK, h0, popWhileFull_zero]
  · intro st text sl tl tr o now h1
    obtain ⟨c2, hok, -, -⟩ := popWhileFull_ok h1
      (eraseKey (generate_cache_key text sl tl o) st.cache)
    refine ⟨{ st with
      cache := c2 ++ [(generate_cache_key text sl tl o, tr, now)],
      stats := { st.stats with total_entries :=
        (c2 ++ [(generate_cache_key text sl tl o, tr, now)]).length } }, ?_⟩
    simp [MemoryCache.set, memSetK, hok]

/-- Witness for C10 at concrete inputs: with capacity 0 the set raises
`KeyError`, with the default capacity it completes. -/
theorem C10_witness :
    (memEmpty 0 86400).max_size = 0 ∧
    1 ≤ (memEmpty 10000 86400).max_size ∧
    MemoryCache.set (memEmpty 0 86400) "hello" "en" "fr" "bonjour" [] 0 =
      .error .keyError ∧
    (∃ st', MemoryCache.set (memEmpty 10000 86400) "hello" "en" "fr" "bonjour" [] 0 =
      .ok st') :=
  ⟨rfl, by decide,
   C10_memory_set_zero_capacity.1 _ "hello" "en" "fr" "bonjour" [] 0 rfl,
   C10_memory_set_zero_capacity.2 _ "hello" "en" "fr" "bonjour" [] 0 (by decide)⟩

/-- Claim C2 (code bug): on every constructed backend, the name `stats`
resolves to the `CacheStats` dataclass instance assigned by
`TranslationCache.__init__` (`self.stats = CacheStats()`), which shadows
the `stats()` method of the class dict, so the call `cache.stats()`
raises `TypeError` instead of returning the stats record — even though
the shadowed method does exist in the class dict. -/
theorem C2_stats_call_raises_typeError :
    (∀ (s : CacheStats) (st : MemState),
      MemoryCache.statsCall s st = .error .typeError) ∧
    (assocFind "stats" memClassDict).isSome = true :=
  ⟨fun _ _ => rfl, rfl⟩

/-- Claim C5 (code bug): `MemoryCache.clear` with a pattern matches the
pattern against the opaque MD5 hex cache key rather than against any
recorded language (the memory backend stores no language metadata at
all).  An MD5 hex key consists of hex digits only and never contains the
letter `z`, so on any memory state whose keys are MD5 digests,
`clear("zh")` removes nothing and returns 0 — even for entries whose
request had source language `zh`. -/
theorem C5_memory_clear_ignores_languages :
    ∀ (st : MemState), (∀ e ∈ st.cache, ∃ s, e.1 = md5hex s) →
      (memClear st (some "zh")).2 = 0 ∧
      (memClear st (some "zh")).1.cache = st.cache := by
  intro st h
  have hall : ∀ e ∈ st.cache, strContains "zh" e.1 = false := by
    intro e he
    obtain ⟨s, hs⟩ := h e he
    rw [hs]
    exact strContains_zh_md5hex s
  constructor
  · have : st.cache.filter (fun e => strContains "zh" e.1) = [] := by
      rw [List.filter_eq_nil_iff]
      intro e he
      simp [hall e he]
    simp [memClear, this]
  · simp only [memClear]
    refine List.filter_eq_self.mpr fun e he => ?_
    simp [hall e he]

/-- Witness for C5: one entry cached for the request
`("hello", "zh", "en")`; its key is an MD5 digest, and `clear("zh")`
deletes nothing and returns 0 although the source language of the
request was `zh`. -/
theorem C5_witness :
    (∀ e ∈ memStateZh.cache, ∃ s, e.1 = md5hex s) ∧
    (memClear memStateZh (some "zh")).2 = 0 ∧
    (memClear memStateZh (some "zh")).1.cache = memStateZh.cache := by
  have hmem : ∀ e ∈ memStateZh.cache, ∃ s, e.1 = md5hex s := by
    intro e he
    simp only [memStateZh, List.mem_singleton] at he
    exact ⟨cacheKeyString "hello" "zh" "en" [], by rw [he]; rfl⟩
  have h := C5_memory_clear_ignores_languages _ hmem
  exact ⟨hmem, h.1, h.2⟩

/-- Claim C6, counterexample: `SQLiteCache.set` performs no exception
handling at all, so when the database medium is transiently unwritable
the call raises `sqlite3.OperationalError` to the caller instead of
silently dropping the write. -/
theorem C6_counterexample_sqlite_set_raises :
    SQLiteCache.set (sqEmpty 100000 86400) "hello" "en" "fr" "bonjour" [] 0 false =
      .error .operationalError := rfl

/-- Claim C6 as amended: the silent-drop policy holds for
`FileCache.set` — with the eviction unlink succeeding, the call returns
normally whether or not the entry-file write fails, and below capacity a
failed write leaves the state exactly unchanged (the write is silently
dropped) — while `SQLiteCache.set` propagates storage errors (see the
counterexample above) and `MemoryCache.set` performs no storage I/O. -/
theorem C6_file_set_swallows_write_failure :
    (∀ (st : FileState) (text source_lang target_lang translated : String)
      (options : List (String × OptVal)) (now : Int) (writeOk : Bool),
      1 ≤ st.max_size →
      ∃ st', FileCache.set st text source_lang target_lang translated options
        now writeOk true = .ok st') ∧
    (∀ (st : FileState) (text source_lang target_lang translated : String)
      (options : List (String × OptVal)) (now : Int),
      st.index.length < st.max_size →
      FileCache.set st text source_lang target_lang translated options
        now false true = .ok st) := by
  constructor
  · intro st text sl tl tr o now writeOk h1
    obtain ⟨idx, fls, hev⟩ := fileEvict_true_ok st h1
    cases writeOk with
    | true =>
      refine ⟨{ st with
        index := updAssoc (generate_cache_key text sl tl o) ⟨now, sl, tl⟩ idx,
        files := updAssoc (generate_cache_key text sl tl o) tr fls,
        stats := { st.stats with total_entries :=
          (updAssoc (generate_cache_key text sl tl o) ⟨now, sl, tl⟩ idx).length } }, ?_⟩
      simp [FileCache.set, fileSetK, hev]
    | false =>
      exact ⟨{ st with index := idx, files := fls },
        by simp [FileCache.set, fileSetK, hev]⟩
  · intro st text sl tl tr o now h
    have hev := fileEvict_not_full h true
    simp [FileCache.set, fileSetK, hev]

/-- Witness for C6 at concrete inputs: a failed write on a fresh
`FileCache` returns normally with the state unchanged. -/
theorem C6_witness :
    1 ≤ (fileEmpty 10000 86400).max_size ∧
    (fileEmpty 10000 86400).index.length < (fileEmpty 10000 86400).max_size ∧
    (∃ st', FileCache.set (fileEmpty 10000 86400) "hello" "en" "fr" "bonjour" []
      0 false true = .ok st') ∧
    FileCache.set (fileEmpty 10000 86400) "hello" "en" "fr" "bonjour" []
      0 false true = .ok (fileEmpty 10000 86400) :=
  ⟨by decide, by decide,
   C6_file_set_swallows_write_failure.1 _ "hello" "en" "fr" "bonjour" [] 0 false
     (by decide),
   C6_file_set_swallows_write_failure.2 _ "hello" "en" "fr" "bonjour" [] 0
     (by decide)⟩

/-- Claim C3, counterexample: a `SQLiteCache` constructed with
`max_size = 0` completes a `set` normally (the eviction subquery on the
empty table deletes nothing) and is left holding one row, exceeding
`max_size`. -/
theorem C3_counterexample_sqlite_zero_capacity :
    Except.map (fun st => decide (st.rows.length ≤ st.max_size))
      (SQLiteCache.set (sqEmpty 0 86400) "hello" "en" "fr" "bonjour" [] 0 true) =
      .ok false := rfl

/-- Claim C8, counterexample: the `"|"` separator also occurs in request
fields, so two requests whose normalized texts differ can produce the
same joined key string — here both yield the bytes of `a|b|en|fr` — and
therefore the same MD5 cache key. -/
theorem C8_counterexample_separator_collision :
    generate_cache_key "a|b" "en" "fr" [] = generate_cache_key "a" "b|en" "fr" [] ∧
    preprocess_text "a|b" ≠ preprocess_text "a" := by
  constructor
  · show md5hex (cacheKeyString "a|b" "en" "fr" []) =
      md5hex (cacheKeyString "a" "b|en" "fr" [])
    exact congrArg md5hex (by decide)
  · decide

/-- Key-level roundtrip for the SQLite backend: an upsert followed by a
point lookup of the same key before expiry returns the stored text. -/
theorem sqliteSetGetK (st : SqState) (k text tr sl tl : String)
    (oj : Option String) (now now2 : Int) (h2 : now2 - now ≤ st.ttl) :
    ∃ st1, sqliteSetK st k text tr sl tl oj now true = .ok st1 ∧
      (sqliteGetK st1 k now2).2 = some tr := by
  refine ⟨_, rfl, ?_⟩
  have hfind : findRow k (eraseRow k (sqEvictRows st) ++
      [⟨k, text, tr, sl, tl, now, oj⟩]) = some ⟨k, text, tr, sl, tl, now, oj⟩ :=
    findRow_append_fresh (fun r hr => mem_eraseRow_ne hr) rfl
  have hexp : isExpired st.ttl now2 now = false := by
    simp only [isExpired, decide_eq_false_iff_not, not_lt]
    omega
  simp [sqliteSetK, sqliteGetK, hfind, hexp]

/-- Claim C1: for each backend, a `set` that completes with a successful
write, immediately followed by a `get` of the same request before the TTL
elapses, returns the value just written.  The memory backend needs
`max_size ≥ 1` (see the claim about zero capacity), the file backend
needs `max_size ≥ 1` and its write oracle honest, the SQLite backend
only a writable database. -/
theorem C1_set_get_roundtrip :
    (∀ (st : MemState) (text source_lang target_lang translated : String)
      (options : List (String × OptVal)) (now now2 : Int),
      1 ≤ st.max_size → now2 - now ≤ st.ttl →
      ∃ st1, MemoryCache.set st text source_lang target_lang translated options now =
          .ok st1 ∧
        (MemoryCache.get st1 text source_lang target_lang options now2).2 =
          some translated) ∧
    (∀ (st : FileState) (text source_lang target_lang translated : String)
      (options : List (String × OptVal)) (now now2 : Int),
      1 ≤ st.max_size → now2 - now ≤ st.ttl →
      ∃ st1, FileCache.set st text source_lang target_lang translated options
          now true true = .ok st1 ∧
        (FileCache.get st1 text source_lang target_lang options now2 true).2 =
          some translated) ∧
    (∀ (st : SqState) (text source_lang target_lang translated : String)
      (options : List (String × OptVal)) (now now2 : Int),
      now2 - now ≤ st.ttl →
      ∃ st1, SQLiteCache.set st text source_lang target_lang translated options
          now true = .ok st1 ∧
        (SQLiteCache.get st1 text source_lang target_lang options now2).2 =
          some translated) := by
  refine ⟨?_, ?_, ?_⟩
  · intro st text sl tl tr o now now2 h1 h2
    simp only [MemoryCache.set, MemoryCache.get]
    generalize generate_cache_key text sl tl o = k
    obtain ⟨c2, hok, -, hmem⟩ := popWhileFull_ok h1 (eraseKey k st.cache)
    refine ⟨{ st with
      cache := c2 ++ [(k, tr, now)],
      stats := { st.stats with total_entries := (c2 ++ [(k, tr, now)]).length } },
      ?_, ?_⟩
    · simp [memSetK, hok]
    · have hfind : assocFind k (c2 ++ [(k, tr, now)]) = some (tr, now) :=
        assocFind_append_fresh fun p hp => mem_eraseKey_ne (hmem p hp)
      have hexp : isExpired st.ttl now2 now = false := by
        simp only [isExpired, decide_eq_false_iff_not, not_lt]
        omega
      simp [memGetK, hfind, hexp]
  · intro st text sl tl tr o now now2 h1 h2
    simp only [FileCache.set, FileCache.get]
    generalize generate_cache_key text sl tl o = k
    obtain ⟨idx, fls, hev⟩ := fileEvict_true_ok st h1
    refine ⟨{ st with
      index := updAssoc k ⟨now, sl, tl⟩ idx,
      files := updAssoc k tr fls,
      stats := { st.stats with total_entries :=
        (updAssoc k ⟨now, sl, tl⟩ idx).length } }, ?_, ?_⟩
    · simp [fileSetK, hev]
    · have hidx := assocFind_updAssoc_self k (⟨now, sl, tl⟩ : FileMeta) idx
      have hfls := assocFind_updAssoc_self k tr fls
      have hexp : isExpired st.ttl now2 now = false := by
        simp only [isExpired, decide_eq_false_iff_not, not_lt]
        omega
      simp [fileGetK, hidx, hfls, hexp]
  · intro st text sl tl tr o now now2 h2
    simp only [SQLiteCache.set, SQLiteCache.get]
    exact sqliteSetGetK st _ text tr sl tl _ now now2 h2

/-- Witness for C1 at concrete inputs on all three backends. -/
theorem C1_witness :
    (1 ≤ (memEmpty 10000 86400).max_size ∧ (0 : Int) - 0 ≤ (memEmpty 10000 86400).ttl) ∧
    (∃ st1, MemoryCache.set (memEmpty 10000 86400) "hello" "en" "fr" "bonjour" [] 0 =
        .ok st1 ∧
      (MemoryCache.get st1 "hello" "en" "fr" [] 0).2 = some "bonjour") ∧
    (∃ st1, FileCache.set (fileEmpty 10000 86400) "hello" "en" "fr" "bonjour" []
        0 true true = .ok st1 ∧
      (FileCache.get st1 "hello" "en" "fr" [] 0 true).2 = some "bonjour") ∧
    (∃ st1, SQLiteCache.set (sqEmpty 100000 86400) "hello" "en" "fr" "bonjour" []
        0 true = .ok st1 ∧
      (SQLiteCache.get st1 "hello" "en" "fr" [] 0).2 = some "bonjour") :=
  ⟨⟨by decide, by decide⟩,
   C1_set_get_roundtrip.1 _ "hello" "en" "fr" "bonjour" [] 0 0 (by decide) (by decide),
   C1_set_get_roundtrip.2.1 _ "hello" "en" "fr" "bonjour" [] 0 0 (by decide) (by decide),
   C1_set_get_roundtrip.2.2 _ "hello" "en" "fr" "bonjour" [] 0 0 (by decide)⟩

/-- Claim C4: no backend ever returns an entry whose age exceeds the
store TTL — a successful `get` certifies a stored entry at most `ttl`
seconds old — and a `get` that finds an expired entry returns absent,
counts a miss, and removes the expired entry from the store as a side
effect. -/
theorem C4_ttl_expiry :
    (∀ (st : MemState) (key v : String) (now : Int),
      (memGetK st key now).2 = some v →
      ∃ ts, assocFind key st.cache = some (v, ts) ∧ now - ts ≤ st.ttl) ∧
    (∀ (st : MemState) (key v : String) (ts now : Int),
      assocFind key st.cache = some (v, ts) → isExpired st.ttl now ts = true →
      memGetK st key now =
        ({ st with
           cache := eraseKey key st.cache,
           stats := { st.stats with misses := st.stats.misses + 1 } }, none)) ∧
    (∀ (st : FileState) (key v : String) (now : Int) (readOk : Bool),
      (fileGetK st key now readOk).2 = some v →
      ∃ m, assocFind key st.index = some m ∧ now - m.timestamp ≤ st.ttl) ∧
    (∀ (st : FileState) (key : String) (m : FileMeta) (now : Int) (readOk : Bool),
      assocFind key st.index = some m → isExpired st.ttl now m.timestamp = true →
      fileGetK st key now readOk =
        ({ st with
           files := eraseKey key st.files,
           index := eraseKey key st.index,
           stats := { st.stats with misses := st.stats.misses + 1 } }, none)) ∧
    (∀ (st : SqState) (key v : String) (now : Int),
      (sqliteGetK st key now).2 = some v →
      ∃ r, findRow key st.rows = some r ∧ r.translated_text = v ∧
        now - r.timestamp ≤ st.ttl) ∧
    (∀ (st : SqState) (key : String) (r : SqRow) (now : Int),
      findRow key st.rows = some r → isExpired st.ttl now r.timestamp = true →
      sqliteGetK st key now =
        ({ st with
           rows := eraseRow key st.rows,
           stats := { st.stats with misses := st.stats.misses + 1 } }, none)) := by
  refine ⟨?_, ?_, ?_, ?_, ?_, ?_⟩
  · intro st key v now h
    rcases hf : assocFind key st.cache with _ | ⟨tr, ts⟩
    · simp [memGetK, hf] at h
    · by_cases hexp : isExpired st.ttl now ts
      · simp [memGetK, hf, hexp] at h
      · refine ⟨ts, ?_, ?_⟩
        · simp only [memGetK, hf] at h
          rw [if_neg (by simpa using hexp)] at h
          simp only [Option.some.injEq] at h
          rw [← h]
        · simp only [isExpired, decide_eq_true_eq, not_lt] at hexp
          omega
  · intro st key v ts now hf hexp
    simp [memGetK, hf, hexp]
  · intro st key v now readOk h
    rcases hf : assocFind key st.index with _ | ⟨m⟩
    · simp [fileGetK, hf] at h
    · by_cases hexp : isExpired st.ttl now m.timestamp
      · simp [fileGetK, hf, hexp] at h
      · refine ⟨m, rfl, ?_⟩
        simp only [isExpired, decide_eq_true_eq, not_lt] at hexp
        omega
  · intro st key m now readOk hf hexp
    simp [fileGetK, hf, hexp]
  · intro st key v now h
    rcases hf : findRow key st.rows with _ | ⟨r⟩
    · simp [sqliteGetK, hf] at h
    · by_cases hexp : isExpired st.ttl now r.timestamp
      · simp [sqliteGetK, hf, hexp] at h
      · refine ⟨r, rfl, ?_, ?_⟩
        · simp only [sqliteGetK, hf] at h
          rw [if_neg (by simpa using hexp)] at h
          simpa using h
        · simp only [isExpired, decide_eq_true_eq, not_lt] at hexp
          omega
  · intro st key r now hf hexp
    simp [sqliteGetK, hf, hexp]

/-- Witness for C4 on concrete expired and live states for each
backend. -/
theorem C4_witness :
    ((memGetK ⟨10, 10, [("k", "v", 0)], {}⟩ "k" 5).2 = some "v" ∧
      ∃ ts, assocFind "k" ([("k", "v", 0)] : List (String × String × Int)) =
        some ("v", ts) ∧ (5 : Int) - ts ≤ 10) ∧
    (assocFind "k" ([("k", "v", 0)] : List (String × String × Int)) =
        some ("v", 0) ∧ isExpired 10 11 0 = true ∧
      memGetK ⟨10, 10, [("k", "v", 0)], {}⟩ "k" 11 =
        (⟨10, 10, [], { misses := 1 }⟩, none)) ∧
    (assocFind "k" ([("k", ⟨0, "en", "fr"⟩)] : List (String × FileMeta)) =
        some ⟨0, "en", "fr"⟩ ∧ isExpired 10 11 0 = true ∧
      fileGetK ⟨10, 10, [("k", ⟨0, "en", "fr"⟩)], [("k", "v")], {}⟩ "k" 11 true =
        (⟨10, 10, [], [], { misses := 1 }⟩, none)) ∧
    (findRow "k" [⟨"k", "t", "v", "en", "fr", 0, none⟩] =
        some ⟨"k", "t", "v", "en", "fr", 0, none⟩ ∧ isExpired 10 11 0 = true ∧
      sqliteGetK ⟨10, 10, [⟨"k", "t", "v", "en", "fr", 0, none⟩], {}⟩ "k" 11 =
        (⟨10, 10, [], { misses := 1 }⟩, none)) := by
  refine ⟨⟨by decide, ?_⟩, ⟨by decide, by decide, ?_⟩,
    ⟨by decide, by decide, ?_⟩, ⟨by decide, by decide, ?_⟩⟩
  · exact C4_ttl_expiry.1 (⟨10, 10, [("k", "v", 0)], {}⟩ : MemState) "k" "v" 5 (by decide)
  · have h := C4_ttl_expiry.2.1 (⟨10, 10, [("k", "v", 0)], {}⟩ : MemState) "k" "v" 0 11
      (by decide) (by decide)
    rw [h]
    decide
  · have h := C4_ttl_expiry.2.2.2.1 (⟨10, 10, [("k", ⟨0, "en", "fr"⟩)],
      [("k", "v")], {}⟩ : FileState) "k" ⟨0, "en", "fr"⟩ 11 true (by decide) (by decide)
    rw [h]
    decide
  · have h := C4_ttl_expiry.2.2.2.2.2 (⟨10, 10, [⟨"k", "t", "v", "en", "fr", 0, none⟩], {}⟩ : SqState)
      "k" ⟨"k", "t", "v", "en", "fr", 0, none⟩ 11 (by decide) (by decide)
    rw [h]
    decide

/-- Claim C9: on a `MemoryCache` of capacity 2, after setting distinct
keys A then B (both unexpired), a `get(A)` refreshes A to the most
recently used position, so a subsequent `set(C)` evicts B and leaves A
and C present. -/
theorem C9_lru_ordering :
    ∀ (kA kB kC vA vB vC : String) (ttl t0 t1 t2 t3 : Int),
    kA ≠ kB → kA ≠ kC → kB ≠ kC → t2 - t0 ≤ ttl →
    ∃ s1 s2 s3 s4,
      memSetK (memEmpty 2 ttl) kA vA t0 = .ok s1 ∧
      memSetK s1 kB vB t1 = .ok s2 ∧
      memGetK s2 kA t2 = (s3, some vA) ∧
      memSetK s3 kC vC t3 = .ok s4 ∧
      assocFind kA s4.cache = some (vA, t0) ∧
      assocFind kB s4.cache = none ∧
      assocFind kC s4.cache = some (vC, t3) := by
  intro kA kB kC vA vB vC ttl t0 t1 t2 t3 hAB hAC hBC h4
  have hBA := Ne.symm hAB
  have hCB := Ne.symm hBC
  have hexp : isExpired ttl t2 t0 = false := by
    simp only [isExpired, decide_eq_false_iff_not, not_lt]
    omega
  refine ⟨⟨2, ttl, [(kA, vA, t0)], ⟨1, 0, 0, 0⟩⟩,
    ⟨2, ttl, [(kA, vA, t0), (kB, vB, t1)], ⟨2, 0, 0, 0⟩⟩,
    ⟨2, ttl, [(kB, vB, t1), (kA, vA, t0)], ⟨2, 1, 0, 0⟩⟩,
    ⟨2, ttl, [(kA, vA, t0), (kC, vC, t3)], ⟨2, 1, 0, 0⟩⟩,
    ?_, ?_, ?_, ?_, ?_, ?_, ?_⟩
  · rfl
  · simp [memSetK, eraseKey, popWhileFull, hAB]
  · simp [memGetK, assocFind, eraseKey, hexp, hBA]
  · simp [memSetK, eraseKey, popWhileFull, hBC, hAC]
  · simp [assocFind]
  · simp [assocFind, hAB, hCB]
  · simp [assocFind, hAC]

/-- Witness for C9 at concrete keys and times. -/
theorem C9_witness :
    ("a" : String) ≠ "b" ∧ ("a" : String) ≠ "c" ∧ ("b" : String) ≠ "c" ∧
    (2 : Int) - 0 ≤ 3600 ∧
    (∃ s1 s2 s3 s4,
      memSetK (memEmpty 2 3600) "a" "va" 0 = .ok s1 ∧
      memSetK s1 "b" "vb" 1 = .ok s2 ∧
      memGetK s2 "a" 2 = (s3, some "va") ∧
      memSetK s3 "c" "vc" 3 = .ok s4 ∧
      assocFind "a" s4.cache = some ("va", 0) ∧
      assocFind "b" s4.cache = none ∧
      assocFind "c" s4.cache = some ("vc", 3)) :=
  ⟨by decide, by decide, by decide, by decide,
   C9_lru_ordering "a" "b" "c" "va" "vb" "vc" 3600 0 1 2 3
     (by decide) (by decide) (by decide) (by decide)⟩

/-- Claim C7: options outside the allow-list
(`formality`, `domain`, `preserve_formatting`) never affect the derived
cache key: two calls agreeing on text, languages and the allow-listed
options produce the same key whatever other options they carry. -/
theorem C7_key_ignores_non_allowlisted_options :
    ∀ (text source_lang target_lang : String) (o1 o2 : List (String × OptVal)),
    (∀ k ∈ allowedOptionKeys, assocFind k o1 = assocFind k o2) →
    generate_cache_key text source_lang target_lang o1 =
      generate_cache_key text source_lang target_lang o2 := by
  intro text sl tl o1 o2 h
  show md5hex (cacheKeyString text sl tl o1) = md5hex (cacheKeyString text sl tl o2)
  refine congrArg md5hex ?_
  rw [cacheKeyString_parts, cacheKeyString_parts, relevantOptions_congr h]

/-- Witness for C7: same allow-listed options, different extra options,
same key. -/
theorem C7_witness :
    (∀ k ∈ allowedOptionKeys,
      assocFind k [("formality", OptVal.str "formal"), ("retries", OptVal.int 3)] =
      assocFind k [("formality", OptVal.str "formal"), ("model", OptVal.str "big"),
        ("verbose", OptVal.bool true)]) ∧
    generate_cache_key "hello" "en" "fr"
        [("formality", OptVal.str "formal"), ("retries", OptVal.int 3)] =
      generate_cache_key "hello" "en" "fr"
        [("formality", OptVal.str "formal"), ("model", OptVal.str "big"),
          ("verbose", OptVal.bool true)] :=
  ⟨by decide, C7_key_ignores_non_allowlisted_options "hello" "en" "fr" _ _ (by decide)⟩

/-- Claim C8 as amended: with identical allow-listed options, two
requests whose normalized texts or normalized language codes differ
produce different key STRINGS fed to the digest, provided none of the
normalized fields contains the `"|"` separator; the keys themselves then
differ up to MD5 collisions.  Without the separator proviso the claim is
false (see the counterexample), and key inequality cannot hold
unconditionally since MD5 is not injective. -/
theorem C8_key_sensitivity_pipe_free :
    ∀ (t1 s1 l1 t2 s2 l2 : String) (o1 o2 : List (String × OptVal)),
    (∀ k ∈ allowedOptionKeys, assocFind k o1 = assocFind k o2) →
    '|' ∉ (preprocess_text t1).data →
    '|' ∉ (normalize_language_code s1).data →
    '|' ∉ (normalize_language_code l1).data →
    '|' ∉ (preprocess_text t2).data →
    '|' ∉ (normalize_language_code s2).data →
    '|' ∉ (normalize_language_code l2).data →
    (preprocess_text t1, normalize_language_code s1, normalize_language_code l1) ≠
      (preprocess_text t2, normalize_language_code s2, normalize_language_code l2) →
    cacheKeyString t1 s1 l1 o1 ≠ cacheKeyString t2 s2 l2 o2 := by
  intro t1 s1 l1 t2 s2 l2 o1 o2 ho hp1 hs1 hl1 hp2 hs2 hl2 hne heq
  rw [cacheKeyString_parts, cacheKeyString_parts, relevantOptions_congr ho] at heq
  by_cases hr : (relevantOptions o2).isEmpty
  · rw [if_pos hr, List.append_nil, List.append_nil] at heq
    have hd := congrArg String.data heq
    rw [pyJoin3_data, pyJoin3_data] at hd
    obtain ⟨hA, hd2⟩ := pipeSplit hp1 hp2 hd
    obtain ⟨hB, hd3⟩ := pipeSplit hs1 hs2 hd2
    exact hne (by rw [String.ext hA, String.ext hB, String.ext hd3])
  · rw [if_neg hr] at heq
    have hd := congrArg String.data heq
    simp only [List.cons_append, List.nil_append] at hd
    rw [pyJoin4_data, pyJoin4_data] at hd
    obtain ⟨hA, hd2⟩ := pipeSplit hp1 hp2 hd
    obtain ⟨hB, hd3⟩ := pipeSplit hs1 hs2 hd2
    obtain ⟨hC, -⟩ := pipeSplit hl1 hl2 hd3
    exact hne (by rw [String.ext hA, String.ext hB, String.ext hC])

/-- Witness for the amended C8: two pipe-free requests differing in the
normalized text have different key strings. -/
theorem C8_witness :
    (∀ k ∈ allowedOptionKeys,
      assocFind k ([] : List (String × OptVal)) =
        assocFind k ([] : List (String × OptVal))) ∧
    '|' ∉ (preprocess_text "hello").data ∧
    '|' ∉ (normalize_language_code "en").data ∧
    '|' ∉ (normalize_language_code "fr").data ∧
    '|' ∉ (preprocess_text "world").data ∧
    (preprocess_text "hello", normalize_language_code "en",
      normalize_language_code "fr") ≠
      (preprocess_text "world", normalize_language_code "en",
        normalize_language_code "fr") ∧
    cacheKeyString "hello" "en" "fr" [] ≠ cacheKeyString "world" "en" "fr" [] :=
  ⟨by decide, by decide, by decide, by decide, by decide, by decide,
   C8_key_sensitivity_pipe_free "hello" "en" "fr" "world" "en" "fr" [] []
     (by decide) (by decide) (by decide) (by decide) (by decide) (by decide)
     (by decide) (by decide)⟩

theorem popWhileFull_lt {m : Nat} {l l' : List α}
    (h : popWhileFull m l = .ok l') : l'.length < m := by
  induction l with
  | nil =>
    by_cases h0 : m = 0
    · simp [popWhileFull, h0] at h
    · simp only [popWhileFull, if_neg h0] at h
      simp only [Except.ok.injEq] at h
      rw [← h]
      simpa using Nat.pos_of_ne_zero h0
  | cons x t ih =>
    by_cases hc : m ≤ (x :: t).length
    · rw [show popWhileFull m (x :: t) =
        (if m ≤ (x :: t).length then popWhileFull m t else .ok (x :: t)) from rfl,
        if_pos hc] at h
      exact ih h
    · rw [show popWhileFull m (x :: t) =
        (if m ≤ (x :: t).length then popWhileFull m t else .ok (x :: t)) from rfl,
        if_neg hc] at h
      simp only [Except.ok.injEq] at h
      rw [← h]
      exact Nat.not_le.mp hc

theorem memSetK_fresh_step (st : MemState) (k v : String) (now : Int)
    (h1 : 1 ≤ st.max_size) (hf : ∀ e ∈ st.cache, e.1 ≠ k) :
    ∃ st', memSetK st k v now = .ok st' ∧ st'.max_size = st.max_size ∧
      st'.cache.length = min (st.cache.length + 1) st.max_size ∧
      ∀ e ∈ st'.cache, e.1 = k ∨ e ∈ st.cache := by
  have herase : eraseKey k st.cache = st.cache :=
    List.filter_eq_self.mpr fun e he => by simpa using hf e he
  obtain ⟨c2, hok, hlen, hmem⟩ := popWhileFull_ok h1 (eraseKey k st.cache)
  rw [herase] at hlen
  refine ⟨{ st with
    cache := c2 ++ [(k, v, now)],
    stats := { st.stats with total_entries := (c2 ++ [(k, v, now)]).length } },
    by simp [memSetK, hok], rfl, ?_, ?_⟩
  · simp only [List.length_append, List.length_cons, List.length_nil]
    omega
  · intro e he
    rcases List.mem_append.mp he with h | h
    · right
      exact herase ▸ hmem e h
    · left
      simp only [List.mem_singleton] at h
      rw [h]

theorem memSetAllK_length :
    ∀ (items : List (String × String)) (st : MemState) (now : Int),
    1 ≤ st.max_size → st.cache.length ≤ st.max_size →
    (items.map Prod.fst).Nodup →
    (∀ p ∈ items, ∀ e ∈ st.cache, e.1 ≠ p.1) →
    ∃ st', memSetAllK st items now = .ok st' ∧
      st'.cache.length = min (st.cache.length + items.length) st.max_size := by
  intro items
  induction items with
  | nil =>
    intro st now h1 hle _ _
    refine ⟨st, rfl, ?_⟩
    simp only [List.length_nil, Nat.add_zero]
    omega
  | cons p t ih =>
    intro st now h1 hle hnd hf
    obtain ⟨k, v⟩ := p
    obtain ⟨st1, hok, hmax, hlen, hmem⟩ := memSetK_fresh_step st k v now h1
      (fun e he => hf (k, v) (List.mem_cons_self _ _) e he)
    simp only [List.map_cons, List.nodup_cons] at hnd
    have h1' : 1 ≤ st1.max_size := hmax ▸ h1
    have hle' : st1.cache.length ≤ st1.max_size := by
      rw [hmax, hlen]
      omega
    have hf' : ∀ q ∈ t, ∀ e ∈ st1.cache, e.1 ≠ q.1 := by
      intro q hq e he
      rcases hmem e he with h | h
      · rw [h]
        intro hkq
        exact hnd.1 (by rw [hkq]; exact List.mem_map_of_mem Prod.fst hq)
      · exact hf q (List.mem_cons_of_mem _ hq) e h
    obtain ⟨st', hall, hlen'⟩ := ih st1 now h1' hle' hnd.2 hf'
    refine ⟨st', ?_, ?_⟩
    · simp [memSetAllK, hok, hall]
    · rw [hlen', hlen, hmax]
      simp only [List.length_cons]
      omega

theorem sqEvictRows_cases3 (st : SqState) :
    (st.rows.length < st.max_size ∧ sqEvictRows st = st.rows) ∨
    (st.rows = [] ∧ sqEvictRows st = []) ∨
    (st.max_size ≤ st.rows.length ∧ ∃ r ∈ st.rows,
      sqEvictRows st = eraseRow r.cache_key st.rows) := by
  by_cases hc : st.max_size ≤ st.rows.length
  · rcases heq : sortBy (fun r => r.timestamp) st.rows with _ | ⟨oldest, rest⟩
    · have hnil : st.rows = [] := by
        by_contra hne
        exact sortBy_ne_nil _ hne heq
      right
      left
      refine ⟨hnil, ?_⟩
      rw [show sqEvictRows st =
        (if st.max_size ≤ st.rows.length then
          (match sortBy (fun r => r.timestamp) st.rows with
           | [] => st.rows
           | oldest :: _ => eraseRow oldest.cache_key st.rows)
         else st.rows) from rfl, if_pos hc, heq, hnil]
    · right
      right
      refine ⟨hc, oldest, mem_of_mem_sortBy (heq ▸ List.mem_cons_self _ _), ?_⟩
      rw [show sqEvictRows st =
        (if st.max_size ≤ st.rows.length then
          (match sortBy (fun r => r.timestamp) st.rows with
           | [] => st.rows
           | oldest :: _ => eraseRow oldest.cache_key st.rows)
         else st.rows) from rfl, if_pos hc, heq]
  · left
    exact ⟨Nat.not_le.mp hc, by simp [sqEvictRows, hc]⟩

theorem sqEvictRows_sublist (st : SqState) :
    List.Sublist (sqEvictRows st) st.rows := by
  rcases sqEvictRows_cases3 st with ⟨-, h⟩ | ⟨hnil, h⟩ | ⟨-, r, -, h⟩
  · rw [h]
  · rw [h, hnil]
  · rw [h]
    exact List.filter_sublist _

theorem sqliteSetK_fresh_step (st : SqState) (k text v sl tl : String)
    (now : Int) (h1 : 1 ≤ st.max_size)
    (hnd : (st.rows.map SqRow.cache_key).Nodup)
    (hle : st.rows.length ≤ st.max_size)
    (hf : ∀ r ∈ st.rows, r.cache_key ≠ k) :
    ∃ st', sqliteSetK st k text v sl tl none now true = .ok st' ∧
      st'.max_size = st.max_size ∧
      st'.rows.length = min (st.rows.length + 1) st.max_size ∧
      (st'.rows.map SqRow.cache_key).Nodup ∧
      ∀ r ∈ st'.rows, r.cache_key = k ∨ r ∈ st.rows := by
  have hsub : List.Sublist (sqEvictRows st) st.rows := sqEvictRows_sublist st
  have hsub2 : List.Sublist (eraseRow k (sqEvictRows st)) st.rows :=
    (List.filter_sublist _).trans hsub
  have herase : eraseRow k (sqEvictRows st) = sqEvictRows st :=
    List.filter_eq_self.mpr fun r hr => by simpa using hf r (hsub.subset hr)
  refine ⟨_, rfl, rfl, ?_, ?_, ?_⟩
  · show (eraseRow k (sqEvictRows st) ++
      [(⟨k, text, v, sl, tl, now, none⟩ : SqRow)]).length =
      min (st.rows.length + 1) st.max_size
    rw [herase]
    simp only [List.length_append, List.length_cons, List.length_nil]
    rcases sqEvictRows_cases3 st with ⟨hlt, h⟩ | ⟨hnil, h⟩ | ⟨hcap, r, hr, h⟩
    · rw [h]
      omega
    · have h0 : st.rows.length = 0 := by rw [hnil]; rfl
      rw [h]
      simp only [List.length_nil]
      omega
    · rw [h]
      have hflen := length_filter_ne_of_nodup_mem SqRow.cache_key hnd hr
      simp only [eraseRow]
      omega
  · show ((eraseRow k (sqEvictRows st) ++
      [(⟨k, text, v, sl, tl, now, none⟩ : SqRow)]).map SqRow.cache_key).Nodup
    rw [List.map_append]
    refine List.Nodup.append (hnd.sublist (hsub2.map SqRow.cache_key))
      (List.nodup_singleton k) ?_
    intro a ha
    obtain ⟨r, hrmem, hrk⟩ := List.mem_map.mp ha
    simp only [List.map_cons, List.map_nil, List.mem_singleton]
    intro hak
    exact mem_eraseRow_ne hrmem (by rw [hrk, hak])
  · intro r hr
    rcases List.mem_append.mp hr with h | h
    · right
      exact hsub2.subset h
    · left
      simp only [List.mem_singleton] at h
      rw [h]

theorem sqliteSetAllK_length :
    ∀ (items : List (String × String)) (st : SqState)
      (text source_lang target_lang : String) (now : Int),
    1 ≤ st.max_size → st.rows.length ≤ st.max_size →
    (st.rows.map SqRow.cache_key).Nodup →
    (items.map Prod.fst).Nodup →
    (∀ p ∈ items, ∀ r ∈ st.rows, r.cache_key ≠ p.1) →
    ∃ st', sqliteSetAllK st text source_lang target_lang items now = .ok st' ∧
      st'.rows.length = min (st.rows.length + items.length) st.max_size := by
  intro items
  induction items with
  | nil =>
    intro st text sl tl now h1 hle _ _ _
    refine ⟨st, rfl, ?_⟩
    simp only [List.length_nil, Nat.add_zero]
    omega
  | cons p t ih =>
    intro st text sl tl now h1 hle hrnd hnd hf
    obtain ⟨k, v⟩ := p
    obtain ⟨st1, hok, hmax, hlen, hrnd1, hmem⟩ :=
      sqliteSetK_fresh_step st k text v sl tl now h1 hrnd hle
        (fun r hr => hf (k, v) (List.mem_cons_self _ _) r hr)
    simp only [List.map_cons, List.nodup_cons] at hnd
    have h1' : 1 ≤ st1.max_size := hmax ▸ h1
    have hle' : st1.rows.length ≤ st1.max_size := by
      rw [hmax, hlen]
      omega
    have hf' : ∀ q ∈ t, ∀ r ∈ st1.rows, r.cache_key ≠ q.1 := by
      intro q hq r hr
      rcases hmem r hr with h | h
      · rw [h]
        intro hkq
        exact hnd.1 (by rw [hkq]; exact List.mem_map_of_mem Prod.fst hq)
      · exact hf q (List.mem_cons_of_mem _ hq) r h
    obtain ⟨st', hall, hlen'⟩ := ih st1 text sl tl now h1' hle' hrnd1 hnd.2 hf'
    refine ⟨st', ?_, ?_⟩
    · simp [sqliteSetAllK, hok, hall]
    · rw [hlen', hlen, hmax]
      simp only [List.length_cons]
      omega

theorem sqliteSetK_length_le (st : SqState) (k text tr sl tl : String)
    (oj : Option String) (now : Int)
    (hnd : (st.rows.map SqRow.cache_key).Nodup)
    (hle : st.rows.length ≤ st.max_size) (h1 : 1 ≤ st.max_size) :
    ∃ st', sqliteSetK st k text tr sl tl oj now true = .ok st' ∧
      st'.rows.length ≤ st.max_size := by
  refine ⟨_, rfl, ?_⟩
  show (eraseRow k (sqEvictRows st) ++
    [(⟨k, text, tr, sl, tl, now, oj⟩ : SqRow)]).length ≤ st.max_size
  have hev : (sqEvictRows st).length + 1 ≤ st.max_size := by
    rcases sqEvictRows_cases3 st with ⟨hlt, h⟩ | ⟨hnil, h⟩ | ⟨hcap, r, hr, h⟩
    · rw [h]
      omega
    · rw [h]
      simpa using h1
    · rw [h]
      have hflen := length_filter_ne_of_nodup_mem SqRow.cache_key hnd hr
      simp only [eraseRow]
      omega
  have hfle : (eraseRow k (sqEvictRows st)).length ≤ (sqEvictRows st).length :=
    List.length_filter_le _ _
  simp only [List.length_append, List.length_cons, List.length_nil]
  omega

/-- Claim C3 as amended: with `max_size ≥ 1` every completed `set` leaves
at most `max_size` entries (for the file and SQLite backends, from any
state satisfying the reachable-state invariants of unique keys and a
respected bound), and inserting `max_size + kk` distinct keys into an
empty store leaves exactly `max_size` entries.  For `max_size = 0` the
bound fails on the SQLite backend (see the counterexample) and the
memory backend cannot complete a `set` at all. -/
theorem C3_capacity_bound :
    (∀ (st : MemState) (text source_lang target_lang translated : String)
      (options : List (String × OptVal)) (now : Int),
      1 ≤ st.max_size →
      ∃ st', MemoryCache.set st text source_lang target_lang translated options now =
        .ok st' ∧ st'.cache.length ≤ st.max_size) ∧
    (∀ (st : FileState) (text source_lang target_lang translated : String)
      (options : List (String × OptVal)) (now : Int) (writeOk : Bool),
      (st.index.map Prod.fst).Nodup → st.index.length ≤ st.max_size →
      1 ≤ st.max_size →
      ∃ st', FileCache.set st text source_lang target_lang translated options
        now writeOk true = .ok st' ∧ st'.index.length ≤ st.max_size) ∧
    (∀ (st : SqState) (text source_lang target_lang translated : String)
      (options : List (String × OptVal)) (now : Int),
      (st.rows.map SqRow.cache_key).Nodup → st.rows.length ≤ st.max_size →
      1 ≤ st.max_size →
      ∃ st', SQLiteCache.set st text source_lang target_lang translated options
        now true = .ok st' ∧ st'.rows.length ≤ st.max_size) ∧
    (∀ (max_size kk : Nat) (ttl now : Int) (items : List (String × String)),
      1 ≤ max_size → (items.map Prod.fst).Nodup →
      items.length = max_size + kk →
      ∃ st', memSetAllK (memEmpty max_size ttl) items now = .ok st' ∧
        st'.cache.length = max_size) ∧
    (∀ (max_size kk : Nat) (ttl now : Int)
      (text source_lang target_lang : String) (items : List (String × String)),
      1 ≤ max_size → (items.map Prod.fst).Nodup →
      items.length = max_size + kk →
      ∃ st', sqliteSetAllK (sqEmpty max_size ttl) text source_lang target_lang
        items now = .ok st' ∧ st'.rows.length = max_size) := by
  refine ⟨?_, ?_, ?_, ?_, ?_⟩
  · intro st text sl tl tr o now h1
    simp only [MemoryCache.set]
    generalize generate_cache_key text sl tl o = k
    obtain ⟨c2, hok, hlen, -⟩ := popWhileFull_ok h1 (eraseKey k st.cache)
    refine ⟨{ st with
      cache := c2 ++ [(k, tr, now)],
      stats := { st.stats with total_entries := (c2 ++ [(k, tr, now)]).length } },
      by simp [memSetK, hok], ?_⟩
    simp only [List.length_append, List.length_cons, List.length_nil]
    omega
  · intro st text sl tl tr o now writeOk hnd hle h1
    simp only [FileCache.set]
    generalize generate_cache_key text sl tl o = k
    obtain ⟨idx, fls, hev⟩ := fileEvict_true_ok st h1
    have hbound : idx.length + 1 ≤ st.max_size := by
      rcases fileEvict_cases hev with ⟨hlt, hidx, -⟩ | ⟨hcap, p, hp, hidx, -⟩
      · rw [hidx]
        omega
      · rw [hidx]
        have hflen := length_filter_ne_of_nodup_mem Prod.fst hnd hp
        simp only [eraseKey]
        omega
    cases writeOk with
    | true =>
      refine ⟨{ st with
        index := updAssoc k ⟨now, sl, tl⟩ idx,
        files := updAssoc k tr fls,
        stats := { st.stats with total_entries :=
          (updAssoc k ⟨now, sl, tl⟩ idx).length } },
        by simp [fileSetK, hev], ?_⟩
      show (updAssoc k (⟨now, sl, tl⟩ : FileMeta) idx).length ≤ st.max_size
      rw [length_updAssoc]
      by_cases hs : (assocFind k idx).isSome
      · rw [if_pos hs]
        omega
      · rw [if_neg hs]
        omega
    | false =>
      refine ⟨{ st with index := idx, files := fls },
        by simp [fileSetK, hev], ?_⟩
      show idx.length ≤ st.max_size
      omega
  · intro st text sl tl tr o now hnd hle h1
    simp only [SQLiteCache.set]
    exact sqliteSetK_length_le st _ text tr sl tl _ now hnd hle h1
  · intro max_size kk ttl now items h1 hnd hitems
    obtain ⟨st', hall, hlen⟩ := memSetAllK_length items (memEmpty max_size ttl)
      now h1 (by simp [memEmpty]) hnd
      (fun p hp e he => by simp [memEmpty] at he)
    refine ⟨st', hall, ?_⟩
    rw [hlen]
    simp only [memEmpty, List.length_nil, Nat.zero_add]
    rw [hitems]
    omega
  · intro max_size kk ttl now text sl tl items h1 hnd hitems
    obtain ⟨st', hall, hlen⟩ := sqliteSetAllK_length items (sqEmpty max_size ttl)
      text sl tl now h1 (by simp [sqEmpty]) (by simp [sqEmpty]) hnd
      (fun p hp r hr => by simp [sqEmpty] at hr)
    refine ⟨st', hall, ?_⟩
    rw [hlen]
    simp only [sqEmpty, List.length_nil, Nat.zero_add]
    rw [hitems]
    omega

/-- Witness for the amended C3: each conjunct at concrete inputs;
capacity 2 plus three distinct keys leaves exactly 2 entries. -/
theorem C3_witness :
    1 ≤ (memEmpty 2 3600).max_size ∧
    ((fileEmpty 2 3600).index.map Prod.fst).Nodup ∧
    (fileEmpty 2 3600).index.length ≤ (fileEmpty 2 3600).max_size ∧
    ((sqEmpty 2 3600).rows.map SqRow.cache_key).Nodup ∧
    (sqEmpty 2 3600).rows.length ≤ (sqEmpty 2 3600).max_size ∧
    ((["a", "b", "c"].map id).Nodup ∧
      ([("a", "x"), ("b", "y"), ("c", "z")].map Prod.fst).Nodup ∧
      ([("a", "x"), ("b", "y"), ("c", "z")] : List (String × String)).length = 2 + 1) ∧
    (∃ st', MemoryCache.set (memEmpty 2 3600) "hello" "en" "fr" "bonjour" [] 0 =
      .ok st' ∧ st'.cache.length ≤ (memEmpty 2 3600).max_size) ∧
    (∃ st', FileCache.set (fileEmpty 2 3600) "hello" "en" "fr" "bonjour" [] 0
      true true = .ok st' ∧ st'.index.length ≤ (fileEmpty 2 3600).max_size) ∧
    (∃ st', SQLiteCache.set (sqEmpty 2 3600) "hello" "en" "fr" "bonjour" [] 0
      true = .ok st' ∧ st'.rows.length ≤ (sqEmpty 2 3600).max_size) ∧
    (∃ st', memSetAllK (memEmpty 2 3600) [("a", "x"), ("b", "y"), ("c", "z")] 0 =
      .ok st' ∧ st'.cache.length = 2) ∧
    (∃ st', sqliteSetAllK (sqEmpty 2 3600) "t" "en" "fr"
      [("a", "x"), ("b", "y"), ("c", "z")] 0 = .ok st' ∧ st'.rows.length = 2) :=
  ⟨by decide, by decide, by decide, by decide, by decide,
   ⟨by decide, by decide, by decide⟩,
   C3_capacity_bound.1 _ "hello" "en" "fr" "bonjour" [] 0 (by decide),
   C3_capacity_bound.2.1 _ "hello" "en" "fr" "bonjour" [] 0 true
     (by decide) (by decide) (by decide),
   C3_capacity_bound.2.2.1 _ "hello" "en" "fr" "bonjour" [] 0
     (by decide) (by decide) (by decide),
   C3_capacity_bound.2.2.2.1 2 1 3600 0 [("a", "x"), ("b", "y"), ("c", "z")]
     (by decide) (by decide) (by decide),
   C3_capacity_bound.2.2.2.2 2 1 3600 0 "t" "en" "fr"
     [("a", "x"), ("b", "y"), ("c", "z")] (by decide) (by decide) (by decide)⟩
